import Mathlib

/-!
Verification of the half-edge diagram (DCEL) engine of
`src/common/halfedgediagram.hpp` (class `hedi::HEDIGraph`).

Shallow embedding.  The C++ class is a `boost::adjacency_list` with bundled
edge properties (`twin`, `next`, `face`, `k`) plus a `std::vector` of face
properties (`edge`, `idx`).  We embed:

* edge descriptors as natural-number identifiers; the edge store is an
  association list `List (Nat × EdgeRec)` where `EdgeRec` carries the
  structural endpoints (`src`, `trg`, boost's source/target) together with
  the bundled properties;
* vertex descriptors as naturals, the vertex store as a list;
* the face table as a `List FaceRec` indexed by position;
* C++ `assert` failures and undefined behaviour (dereferencing a dangling
  descriptor, `faces[f]` out of range, `*list.begin()` on an empty list)
  as `none` / a dedicated failure constructor: the function result that
  carries no graph, since the aborting program publishes none;
* the two unbounded `while` loops of the source (`previous_edge` and
  `face_edges`) with an explicit fuel argument: exhausting the fuel models
  the loop still running;
* `face_vertices`, whose loop carries a hard internal step cap of
  3000000 (`assert(count < 3000000)`), with that same constant, and with a
  distinguished `guardExceeded` result when the cap fires;
* the `double` coefficient `k` as `Int`: the code only ever copies the
  caller-supplied value into the edge record, so assignment is exact and
  no floating-point reasoning is involved.
-/

namespace HEDI

/-- Bundled edge properties of the source (`twin`, `next`, `face`, `k`)
together with boost's structural source/target vertices of the edge. -/
structure EdgeRec where
  src : Nat
  trg : Nat
  twin : Nat := 0
  next : Nat := 0
  face : Nat := 0
  k : Int := 0
  deriving Repr, DecidableEq

/-- Face properties: representative boundary edge and own index. -/
structure FaceRec where
  edge : Nat := 0
  idx : Nat := 0
  deriving Repr, DecidableEq

/-- The half-edge diagram: edge store (association list keyed by edge
descriptor), fresh-descriptor counters, vertex store, and face table. -/
structure HEDIGraph where
  edges : List (Nat × EdgeRec) := []
  nextEdgeId : Nat := 0
  verts : List Nat := []
  nextVertexId : Nat := 0
  faces : List FaceRec := []
  deriving Repr, DecidableEq

/-- Look up an edge record by descriptor (first match in the store). -/
def lookupEdge : List (Nat × EdgeRec) → Nat → Option EdgeRec
  | [], _ => none
  | p :: t, e => if p.1 = e then some p.2 else lookupEdge t e

/-- Rewrite the record stored under descriptor `e` (identity elsewhere). -/
def updateEdges : List (Nat × EdgeRec) → Nat → (EdgeRec → EdgeRec) → List (Nat × EdgeRec)
  | [], _, _ => []
  | p :: t, e, f => (if p.1 = e then (p.1, f p.2) else p) :: updateEdges t e f

/-- Delete every entry stored under descriptor `e`. -/
def removeEdges : List (Nat × EdgeRec) → Nat → List (Nat × EdgeRec)
  | [], _ => []
  | p :: t, e => if p.1 = e then removeEdges t e else p :: removeEdges t e

/-- Read a face record by index (`faces[f]`; `none` models out of range). -/
def getFace : List FaceRec → Nat → Option FaceRec
  | [], _ => none
  | p :: _, 0 => some p
  | _ :: t, n+1 => getFace t n

/-- Rewrite the face record at index `n` (identity when out of range). -/
def setFace : List FaceRec → Nat → (FaceRec → FaceRec) → List FaceRec
  | [], _, _ => []
  | p :: t, 0, f => f p :: t
  | p :: t, n+1, f => p :: setFace t n f

/-- Access `g[e]` for an edge descriptor. -/
def getEdge (G : HEDIGraph) (e : Nat) : Option EdgeRec :=
  lookupEdge G.edges e

/-- Write access to `g[e]`. -/
def setEdge (G : HEDIGraph) (e : Nat) (f : EdgeRec → EdgeRec) : HEDIGraph :=
  { G with edges := updateEdges G.edges e f }

/-- Source `add_vertex`: `boost::add_vertex(g)`, returns the new descriptor. -/
def add_vertex (G : HEDIGraph) : Nat × HEDIGraph :=
  (G.nextVertexId,
   { G with verts := G.verts ++ [G.nextVertexId], nextVertexId := G.nextVertexId + 1 })

/-- Source `add_edge(v1, v2)`: `boost::add_edge(v1, v2, g)` with
default-constructed bundled properties; returns the new descriptor. -/
def add_edge (G : HEDIGraph) (v1 v2 : Nat) : Nat × HEDIGraph :=
  (G.nextEdgeId,
   { G with edges := G.edges ++ [(G.nextEdgeId, { src := v1, trg := v2 })],
            nextEdgeId := G.nextEdgeId + 1 })

/-- Source `remove_edge(e)`: `boost::remove_edge(e, g)`. -/
def remove_edge (G : HEDIGraph) (e : Nat) : HEDIGraph :=
  { G with edges := removeEdges G.edges e }

/-- Source `target(e)`: `boost::target(e, g)`. -/
def target (G : HEDIGraph) (e : Nat) : Option Nat :=
  (getEdge G e).map (·.trg)

/-- Source `source(e)`: `boost::source(e, g)`. -/
def source (G : HEDIGraph) (e : Nat) : Option Nat :=
  (getEdge G e).map (·.src)

/-- Source `num_vertices()`: `boost::num_vertices(g)`. -/
def num_vertices (G : HEDIGraph) : Nat :=
  G.verts.length

/-- The `next` property of an edge, as a partial successor map. -/
def nextEdge (G : HEDIGraph) (e : Nat) : Option Nat :=
  (getEdge G e).map (·.next)

/-- Iterate the `next` map `n` times. -/
def nextIter (G : HEDIGraph) : Nat → Nat → Option Nat
  | 0, e => some e
  | n+1, e =>
    match nextEdge G e with
    | none => none
    | some a => nextIter G n a

/-- Loop body of source `previous_edge`:
`while (g[previous].next != e) previous = g[previous].next`.  The C++ loop
is unbounded; `fuel` exhaustion (`none`) models the loop still running. -/
def previous_edge_go (G : HEDIGraph) (e : Nat) : Nat → Nat → Option Nat
  | _, 0 => none
  | previous, fuel+1 =>
    match getEdge G previous with
    | none => none
    | some r => if r.next = e then some previous else previous_edge_go G e r.next fuel

/-- Source `previous_edge(e)`: start at `g[e].next` and follow `next` until
the edge whose `next` is `e` is found. -/
def previous_edge (G : HEDIGraph) (e : Nat) (fuel : Nat) : Option Nat :=
  match getEdge G e with
  | none => none
  | some r => previous_edge_go G e r.next fuel

/-- Source `twin_edges(e1, e2)`: asserts `target(e1) == source(e2)` and
`source(e1) == target(e2)` (the violation is printed / reported by the
failing `assert` and the program aborts, publishing no graph: `none`);
when both hold, makes the two edges mutual twins. -/
def twin_edges (G : HEDIGraph) (e1 e2 : Nat) : Option HEDIGraph :=
  match getEdge G e1, getEdge G e2 with
  | some r1, some r2 =>
    if r1.trg = r2.src then
      if r1.src = r2.trg then
        some (setEdge (setEdge G e1 (fun r => { r with twin := e2 }))
                e2 (fun r => { r with twin := e1 }))
      else none
    else none
  | _, _ => none

/-- Source `add_twin_edges(v1, v2)`: add `v1->v2` and `v2->v1` and twin them. -/
def add_twin_edges (G : HEDIGraph) (v1 v2 : Nat) : Option (Nat × Nat × HEDIGraph) :=
  match add_edge G v1 v2 with
  | (e1, G1) =>
    match add_edge G1 v2 v1 with
    | (e2, G2) =>
      match twin_edges G2 e1 e2 with
      | none => none
      | some G3 => some (e1, e2, G3)

/-- Source `add_face(prop)`: `push_back`, then `index = faces.size()-1`,
`faces[index].idx = index`, return `index`. -/
def add_face (G : HEDIGraph) (prop : FaceRec) : Nat × HEDIGraph :=
  let faces1 := G.faces ++ [prop]
  let index := faces1.length - 1
  let faces2 := setFace faces1 index (fun fp => { fp with idx := index })
  (index, { G with faces := faces2 })

/-- Source `add_face()` (no payload): default-constructed `TFaceProperties`
then the same index assignment. -/
def add_face0 (G : HEDIGraph) : Nat × HEDIGraph :=
  add_face G {}

/-- Source `set_next(e1, e2)`: asserts `target(e1) == source(e2)` (after
printing the offending indices); on success `g[e1].next = e2`. -/
def set_next (G : HEDIGraph) (e1 e2 : Nat) : Option HEDIGraph :=
  match getEdge G e1, getEdge G e2 with
  | some r1, some r2 =>
    if r1.trg = r2.src then
      some (setEdge G e1 (fun r => { r with next := e2 }))
    else none
  | _, _ => none

/-- Loop of source `set_next_cycle`: for each list element link it to its
successor (or back to `begin` for the last element), then stamp `face`
and `k` on it. -/
def set_next_cycle_go (G : HEDIGraph) (begin f : Nat) (k : Int) : List Nat → Option HEDIGraph
  | [] => some G
  | [a] =>
    match set_next G a begin with
    | none => none
    | some G1 => some (setEdge G1 a (fun r => { r with face := f, k := k }))
  | a :: b :: t =>
    match set_next G a b with
    | none => none
    | some G1 => set_next_cycle_go (setEdge G1 a (fun r => { r with face := f, k := k })) begin f k (b :: t)

/-- Source `set_next_cycle(list, f, k)`: `faces[f].edge = *list.begin()`
(dereferencing `begin` before any emptiness check: on `[]` this is
undefined behaviour, modelled as `none`), then the linking/stamping loop. -/
def set_next_cycle (G : HEDIGraph) (l : List Nat) (f : Nat) (k : Int) : Option HEDIGraph :=
  match l with
  | [] => none
  | x :: _ =>
    set_next_cycle_go { G with faces := setFace G.faces f (fun fp => { fp with edge := x }) } x f k l

/-- Loop of the face-stamping source `set_next_chain(list, f, k)`: link each
element to its successor (no closing link for the last), stamp `face`/`k`
on every element. -/
def set_next_chain_go (G : HEDIGraph) (f : Nat) (k : Int) : List Nat → Option HEDIGraph
  | [] => some G
  | [a] => some (setEdge G a (fun r => { r with face := f, k := k }))
  | a :: b :: t =>
    match set_next G a b with
    | none => none
    | some G1 => set_next_chain_go (setEdge G1 a (fun r => { r with face := f, k := k })) f k (b :: t)

/-- Source `set_next_chain(list, f, k)`: `faces[f].edge = *list.begin()`
before any emptiness check (undefined on `[]`, modelled as `none`),
then the open-chain loop. -/
def set_next_chain (G : HEDIGraph) (l : List Nat) (f : Nat) (k : Int) : Option HEDIGraph :=
  match l with
  | [] => none
  | x :: _ =>
    set_next_chain_go { G with faces := setFace G.faces f (fun fp => { fp with edge := x }) } f k l

/-- Result of the `face_vertices` boundary walk: normal return, the
`assert(count < 3000000)` guard firing (after the error printout), or an
abort from corrupted data (dangling descriptor / the
`assert(g[current].face == g[g[current].next].face)` consistency check). -/
inductive WalkResult where
  | ok : List Nat → WalkResult
  | guardExceeded : WalkResult
  | corrupt : WalkResult
  deriving Repr, DecidableEq

/-- Loop body of source `face_vertices`: record `target(current)`, check the
face-consistency assert, advance along `next`, fire the step-cap guard when
`count` reaches 3000000 (here: when `fuel` reaches 0), stop when the walk
returns to `startedge`. -/
def face_vertices_go (G : HEDIGraph) (startedge : Nat) : Nat → List Nat → Nat → WalkResult
  | current, verts, 0 =>
    match getEdge G current with
    | none => .corrupt
    | some r =>
      match getEdge G r.next with
      | none => .corrupt
      | some rn => if r.face = rn.face then .guardExceeded else .corrupt
  | current, verts, fuel+1 =>
    match getEdge G current with
    | none => .corrupt
    | some r =>
      match getEdge G r.next with
      | none => .corrupt
      | some rn =>
        if r.face = rn.face then
          (if r.next = startedge then .ok (verts ++ [r.trg])
           else face_vertices_go G startedge r.next (verts ++ [r.trg]) fuel)
        else .corrupt

/-- Source `face_vertices(face_idx)`: start at `faces[face_idx].edge`,
record its target, then walk `next` with the internal 3000000-step cap. -/
def face_vertices (G : HEDIGraph) (face_idx : Nat) : WalkResult :=
  match getFace G.faces face_idx with
  | none => .corrupt
  | some fp =>
    match getEdge G fp.edge with
    | none => .corrupt
    | some r => face_vertices_go G fp.edge r.next [r.trg] 3000000

/-- Result of the `face_edges` walk.  The source loop has no step guard at
all, so the only outcomes are normal closure, an abort on a dangling
descriptor, or the loop still running when the external fuel runs out. -/
inductive Walk2 where
  | ok : List Nat → Walk2
  | stillLooping : Walk2
  | corrupt : Walk2
  deriving Repr, DecidableEq

/-- Loop body of source `face_edges`: push `current_edge`, advance along
`next`, stop when back at `start_edge`.  No guard exists in the source;
`fuel` is only the observation budget of the embedding. -/
def face_edges_go (G : HEDIGraph) (start_edge : Nat) : Nat → List Nat → Nat → Walk2
  | _, _, 0 => .stillLooping
  | current, out, fuel+1 =>
    match getEdge G current with
    | none => .corrupt
    | some r =>
      if r.next = start_edge then .ok (out ++ [current])
      else face_edges_go G start_edge r.next (out ++ [current]) fuel

/-- Source `face_edges(f)`: do-while walk from `faces[f].edge`. -/
def face_edges (G : HEDIGraph) (f : Nat) (fuel : Nat) : Walk2 :=
  match getFace G.faces f with
  | none => .corrupt
  | some fp => face_edges_go G fp.edge fp.edge [] fuel

/-- The `face_edges` walk of a face never terminates, whatever step budget
it is given: the embedding's rendering of the unguarded infinite loop. -/
def face_edges_diverges (G : HEDIGraph) (f : Nat) : Prop :=
  ∀ fuel, face_edges G f fuel = .stillLooping

/-- State of the source `edge_iterator` (boost `iterator_facade`): current
edge and the has-stepped flag `m_inc`. -/
structure EdgeIter where
  m_edge : Nat
  m_inc : Bool
  deriving Repr, DecidableEq

/-- Source `edge_iterator::increment`: `m_edge = m_g[m_edge].next`, then
`m_inc = true`. -/
def iter_increment (G : HEDIGraph) (it : EdgeIter) : Option EdgeIter :=
  match getEdge G it.m_edge with
  | none => none
  | some r => some { m_edge := r.next, m_inc := true }

/-- Source `edge_iterator::equal`: `m_edge == other.m_edge && m_inc`. -/
def iter_equal (it other : EdgeIter) : Bool :=
  it.m_edge == other.m_edge && it.m_inc

/-- Source `face_edges_itr(f)`: a begin/end pair, both at `faces[f].edge`
with `m_inc = false`. -/
def face_edges_itr (G : HEDIGraph) (f : Nat) : Option (EdgeIter × EdgeIter) :=
  match getFace G.faces f with
  | none => none
  | some fp => some (⟨fp.edge, false⟩, ⟨fp.edge, false⟩)

/-- The canonical consumer loop of the iterator pair: while the current
iterator does not `equal` the end iterator, yield `m_edge` and `increment`.
`fuel` bounds the observation (the loop itself has no bound). -/
def iter_collect (G : HEDIGraph) (endIt : EdgeIter) : EdgeIter → Nat → Option (List Nat)
  | it, 0 => if iter_equal it endIt then some [] else none
  | it, fuel+1 =>
    if iter_equal it endIt then some []
    else
      match iter_increment G it with
      | none => none
      | some it' =>
        match iter_collect G endIt it' fuel with
        | none => none
        | some rest => some (it.m_edge :: rest)

/-- Write `faces[f].edge = e` (used by `insert_vertex_in_edge`). -/
def set_face_edge (G : HEDIGraph) (f : Nat) (e : Nat) : HEDIGraph :=
  { G with faces := setFace G.faces f (fun fp => { fp with edge := e }) }

/-- Source `insert_vertex_in_edge(v, e)`: split `e` and its twin at `v`,
following the statement order of the source exactly.  The `assert`s on the
twin's endpoints and on the faces of the two `previous` edges are modelled
as `none` (abort); the two `previous_edge` calls take the ambient `fuel`.
The two reads of `g[e].next` and `g[twin].next` happen, as in the source,
after the earlier next-pointer writes. -/
def insert_vertex_in_edge (fuel : Nat) (G : HEDIGraph) (v e : Nat) : Option HEDIGraph :=
  (getEdge G e).bind fun er =>
    (getEdge G er.twin).bind fun tr =>
      if er.src = tr.trg then
        if er.trg = tr.src then
          (previous_edge G e fuel).bind fun previous =>
            (getEdge G previous).bind fun pr =>
              if pr.face = er.face then
                (previous_edge G er.twin fuel).bind fun twin_previous =>
                  (getEdge G twin_previous).bind fun tpr =>
                    if tpr.face = tr.face then
                      let e1 := (add_edge G er.src v).1
                      let G1 := (add_edge G er.src v).2
                      let e2 := (add_edge G1 v er.trg).1
                      let G2 := (add_edge G1 v er.trg).2
                      let G3 := setEdge G2 e1 (fun r => { r with face := er.face })
                      let G4 := setEdge G3 e2 (fun r => { r with face := er.face })
                      let G5 := setEdge G4 previous (fun r => { r with next := e1 })
                      let G6 := setEdge G5 e1 (fun r => { r with next := e2 })
                      (getEdge G6 e).bind fun er6 =>
                        let G7 := setEdge G6 e2 (fun r => { r with next := er6.next })
                        let te1 := (add_edge G7 tr.src v).1
                        let G8 := (add_edge G7 tr.src v).2
                        let te2 := (add_edge G8 v tr.trg).1
                        let G9 := (add_edge G8 v tr.trg).2
                        let G10 := setEdge G9 te1 (fun r => { r with face := tr.face })
                        let G11 := setEdge G10 te2 (fun r => { r with face := tr.face })
                        let G12 := setEdge G11 twin_previous (fun r => { r with next := te1 })
                        let G13 := setEdge G12 te1 (fun r => { r with next := te2 })
                        (getEdge G13 er.twin).bind fun tr13 =>
                          let G14 := setEdge G13 te2 (fun r => { r with next := tr13.next })
                          let G15 := setEdge G14 e1 (fun r => { r with twin := te2 })
                          let G16 := setEdge G15 te2 (fun r => { r with twin := e1 })
                          let G17 := setEdge G16 e2 (fun r => { r with twin := te1 })
                          let G18 := setEdge G17 te1 (fun r => { r with twin := e2 })
                          let G19 := set_face_edge G18 er.face e1
                          let G20 := set_face_edge G19 tr.face te1
                          let G21 := remove_edge G20 e
                          some (remove_edge G21 er.twin)
                    else none
              else none
        else none
      else none

/-- Boolean face-boundary chain: `chainB G l stop` holds when each list
element's `next` is the following element and the last element's `next` is
`stop`.  `chainB G (e :: rest) e` says the boundary cycle through `e`
closes after `(e :: rest).length` steps. -/
def chainB (G : HEDIGraph) : List Nat → Nat → Bool
  | [], _ => true
  | [a], s => nextEdge G a == some s
  | a :: b :: t, s => nextEdge G a == some b && chainB G (b :: t) s

/-- Open-chain links: each element's `next` is the following element, with
no condition on the last element. -/
def openChainB (G : HEDIGraph) : List Nat → Bool
  | [] => true
  | [_] => true
  | a :: b :: t => nextEdge G a == some b && openChainB G (b :: t)

/-- Every stored edge descriptor is below the fresh-descriptor counter:
the invariant every graph built by the operations satisfies, needed so
that freshly added descriptors are really new. -/
def freshEdges (G : HEDIGraph) : Prop :=
  ∀ p ∈ G.edges, p.1 < G.nextEdgeId

instance (G : HEDIGraph) : Decidable (freshEdges G) :=
  inferInstanceAs (Decidable (∀ p ∈ G.edges, p.1 < G.nextEdgeId))

/-- Both endpoint records exist and `target(a) == source(b)`: the
precondition of `set_next(a, b)`. -/
def adjOK (G : HEDIGraph) (a b : Nat) : Prop :=
  ∃ ra rb, getEdge G a = some ra ∧ getEdge G b = some rb ∧ ra.trg = rb.src

/-- Computable form of `adjOK`, reducible inside `decide`. -/
def adjB (G : HEDIGraph) (a b : Nat) : Bool :=
  match getEdge G a, getEdge G b with
  | some ra, some rb => ra.trg == rb.src
  | _, _ => false

/-- Computable form of `List.Chain' (adjOK G)`. -/
def adjChainB (G : HEDIGraph) : List Nat → Bool
  | [] => true
  | [_] => true
  | a :: b :: t => adjB G a b && adjChainB G (b :: t)



/-! Basic lemmas about the stores. -/

theorem lookupEdge_update (l : List (Nat × EdgeRec)) (e : Nat) (f : EdgeRec → EdgeRec) (b : Nat) :
    lookupEdge (updateEdges l e f) b =
      if b = e then (lookupEdge l e).map f else lookupEdge l b := by
  induction l with
  | nil => simp [lookupEdge, updateEdges]
  | cons p t ih =>
    by_cases hpe : p.1 = e
    · by_cases hbe : b = e
      · simp [lookupEdge, updateEdges, hpe, hbe]
      · have hbe' : ¬ e = b := fun h => hbe h.symm
        simp [lookupEdge, updateEdges, hpe, hbe, hbe', ih]
    · by_cases hbp : p.1 = b
      · have hbe : ¬ b = e := fun h => hpe (hbp.trans h)
        simp [lookupEdge, updateEdges, hpe, hbp, hbe]
      · simp [lookupEdge, updateEdges, hpe, hbp, ih]

theorem lookupEdge_remove (l : List (Nat × EdgeRec)) (e b : Nat) :
    lookupEdge (removeEdges l e) b =
      if b = e then none else lookupEdge l b := by
  induction l with
  | nil => simp [lookupEdge, removeEdges]
  | cons p t ih =>
    by_cases hpe : p.1 = e
    · by_cases hbe : b = e
      · subst hbe
        simpa [lookupEdge, removeEdges, hpe] using ih
      · have hbe' : ¬ e = b := fun h => hbe h.symm
        simp [lookupEdge, removeEdges, hpe, hbe, hbe', ih]
    · by_cases hbp : p.1 = b
      · have hbe : ¬ b = e := fun h => hpe (hbp.trans h)
        simp [lookupEdge, removeEdges, hpe, hbp, hbe]
      · simp [lookupEdge, removeEdges, hpe, hbp, ih]

theorem lookupEdge_append (l1 l2 : List (Nat × EdgeRec)) (b : Nat) :
    lookupEdge (l1 ++ l2) b =
      match lookupEdge l1 b with
      | some r => some r
      | none => lookupEdge l2 b := by
  induction l1 with
  | nil => simp [lookupEdge]
  | cons p t ih =>
    by_cases hbp : p.1 = b
    · simp [lookupEdge, hbp]
    · simp [lookupEdge, hbp, ih]

theorem lookupEdge_none_of_fresh (l : List (Nat × EdgeRec)) (n : Nat)
    (h : ∀ p ∈ l, p.1 < n) : lookupEdge l n = none := by
  induction l with
  | nil => rfl
  | cons p t ih =>
    have hp := h p (List.mem_cons_self p t)
    have : ¬ p.1 = n := Nat.ne_of_lt hp
    simp [lookupEdge, this]
    exact ih (fun q hq => h q (List.mem_cons_of_mem p hq))

theorem lookupEdge_mem (l : List (Nat × EdgeRec)) (b : Nat) (r : EdgeRec)
    (h : lookupEdge l b = some r) : (b, r) ∈ l := by
  induction l with
  | nil => simp [lookupEdge] at h
  | cons p t ih =>
    by_cases hbp : p.1 = b
    · simp [lookupEdge, hbp] at h
      subst h
      rw [← hbp]
      exact List.mem_cons_self p t
    · simp [lookupEdge, hbp] at h
      exact List.mem_cons_of_mem p (ih h)

/-! Graph-level rewriting lemmas. -/

theorem getEdge_setEdge (G : HEDIGraph) (a : Nat) (f : EdgeRec → EdgeRec) (b : Nat) :
    getEdge (setEdge G a f) b = if b = a then (getEdge G a).map f else getEdge G b :=
  lookupEdge_update G.edges a f b

theorem getEdge_remove_edge (G : HEDIGraph) (a b : Nat) :
    getEdge (remove_edge G a) b = if b = a then none else getEdge G b :=
  lookupEdge_remove G.edges a b

theorem getEdge_lt_of_fresh (G : HEDIGraph) (b : Nat) (r : EdgeRec)
    (hf : freshEdges G) (h : getEdge G b = some r) : b < G.nextEdgeId :=
  hf (b, r) (lookupEdge_mem G.edges b r h)

theorem getEdge_add_edge (G : HEDIGraph) (v1 v2 : Nat) (b : Nat) (hf : freshEdges G) :
    getEdge (add_edge G v1 v2).2 b =
      if b = G.nextEdgeId then some { src := v1, trg := v2 } else getEdge G b := by
  show lookupEdge (G.edges ++ [(G.nextEdgeId, { src := v1, trg := v2 })]) b = _
  rw [lookupEdge_append]
  by_cases hb : b = G.nextEdgeId
  · rw [hb, lookupEdge_none_of_fresh G.edges G.nextEdgeId hf]
    simp [lookupEdge]
  · have hb' : ¬ G.nextEdgeId = b := fun h => hb h.symm
    simp only [hb, if_false]
    cases h : lookupEdge G.edges b with
    | some r => simp [getEdge, h]
    | none => simp [lookupEdge, hb', getEdge, h]

theorem getEdge_setEdge_eq (G : HEDIGraph) (a : Nat) (f : EdgeRec → EdgeRec) :
    getEdge (setEdge G a f) a = (getEdge G a).map f := by
  rw [getEdge_setEdge, if_pos rfl]

theorem getEdge_setEdge_ne (G : HEDIGraph) (a : Nat) (f : EdgeRec → EdgeRec) (b : Nat)
    (hb : ¬ b = a) : getEdge (setEdge G a f) b = getEdge G b := by
  rw [getEdge_setEdge, if_neg hb]

theorem getEdge_remove_edge_ne (G : HEDIGraph) (a b : Nat) (hb : ¬ b = a) :
    getEdge (remove_edge G a) b = getEdge G b := by
  rw [getEdge_remove_edge, if_neg hb]

theorem getEdge_remove_edge_eq (G : HEDIGraph) (a : Nat) :
    getEdge (remove_edge G a) a = none := by
  rw [getEdge_remove_edge, if_pos rfl]

theorem setEdge_nextEdgeId (G : HEDIGraph) (a : Nat) (f : EdgeRec → EdgeRec) :
    (setEdge G a f).nextEdgeId = G.nextEdgeId := rfl

theorem setEdge_faces (G : HEDIGraph) (a : Nat) (f : EdgeRec → EdgeRec) :
    (setEdge G a f).faces = G.faces := rfl

theorem setEdge_verts (G : HEDIGraph) (a : Nat) (f : EdgeRec → EdgeRec) :
    (setEdge G a f).verts = G.verts := rfl

theorem getFace_setFace (l : List FaceRec) (n : Nat) (f : FaceRec → FaceRec) (m : Nat) :
    getFace (setFace l n f) m = if m = n then (getFace l n).map f else getFace l m := by
  induction l generalizing n m with
  | nil => simp [getFace, setFace]
  | cons p t ih =>
    cases n with
    | zero =>
      cases m with
      | zero => simp [getFace, setFace]
      | succ m' => simp [getFace, setFace]
    | succ n' =>
      cases m with
      | zero => simp [getFace, setFace]
      | succ m' => simpa [getFace, setFace] using ih n' m'

theorem getFace_append_last (l : List FaceRec) (p : FaceRec) :
    getFace (l ++ [p]) l.length = some p := by
  induction l with
  | nil => rfl
  | cons q t ih => simpa [getFace] using ih

theorem getFace_lt (l : List FaceRec) (n : Nat) (h : n < l.length) :
    ∃ fp, getFace l n = some fp := by
  induction l generalizing n with
  | nil => simp at h
  | cons p t ih =>
    cases n with
    | zero => exact ⟨p, rfl⟩
    | succ n' => exact ih n' (Nat.lt_of_succ_lt_succ h)

theorem setFace_length (l : List FaceRec) (n : Nat) (f : FaceRec → FaceRec) :
    (setFace l n f).length = l.length := by
  induction l generalizing n with
  | nil => rfl
  | cons p t ih =>
    cases n with
    | zero => rfl
    | succ n' => simpa [setFace] using ih n'

/-! Face-table lemmas for `add_face`. -/

theorem setFace_append_last (l : List FaceRec) (p : FaceRec) (f : FaceRec → FaceRec) :
    setFace (l ++ [p]) l.length f = l ++ [f p] := by
  induction l with
  | nil => rfl
  | cons q t ih => simpa [setFace] using ih

/-! Chain lemmas: `chainB G l s` walks the `next` links along `l`, closing at `s`. -/

theorem chainB_cons (G : HEDIGraph) (a : Nat) (t : List Nat) (s : Nat) :
    chainB G (a :: t) s =
      (nextEdge G a == some (t.headD s) && chainB G t s) := by
  cases t with
  | nil => simp [chainB]
  | cons b t' => simp [chainB]

theorem chainB_mem_present (G : HEDIGraph) :
    ∀ (l : List Nat) (s : Nat), chainB G l s = true →
      ∀ x ∈ l, ∃ r, getEdge G x = some r := by
  intro l
  induction l with
  | nil => intro s _ x hx; simp at hx
  | cons a t ih =>
    intro s h x hx
    rw [chainB_cons] at h
    have h1 : nextEdge G a = some (t.headD s) :=
      beq_iff_eq.mp ((Bool.and_eq_true _ _).mp h).1
    have h2 : chainB G t s = true := ((Bool.and_eq_true _ _).mp h).2
    rcases List.mem_cons.mp hx with hxa | hxt
    · subst hxa
      cases hr : getEdge G x with
      | none => rw [nextEdge, hr] at h1; simp at h1
      | some r => exact ⟨r, rfl⟩
    · exact ih s h2 x hxt

theorem chainB_head_next (G : HEDIGraph) (a : Nat) (t : List Nat) (s : Nat)
    (h : chainB G (a :: t) s = true) : nextEdge G a = some (t.headD s) := by
  rw [chainB_cons] at h
  exact beq_iff_eq.mp ((Bool.and_eq_true _ _).mp h).1

theorem chainB_getLast_next (G : HEDIGraph) :
    ∀ (l : List Nat) (s : Nat) (hl : l ≠ []), chainB G l s = true →
      nextEdge G (l.getLast hl) = some s := by
  intro l
  induction l with
  | nil => intro s hl _; exact absurd rfl hl
  | cons a t ih =>
    intro s hl h
    cases t with
    | nil => simpa [chainB, List.getLast] using h
    | cons b t' =>
      have h2 : chainB G (b :: t') s = true := ((Bool.and_eq_true _ _).mp h).2
      rw [List.getLast_cons (by simp : b :: t' ≠ [])]
      exact ih s (by simp) h2

theorem chainB_pred_unique (G : HEDIGraph) :
    ∀ (l : List Nat) (s : Nat) (hl : l ≠ []), chainB G l s = true →
      s ∉ l.tail → ∀ q ∈ l, nextEdge G q = some s → q = l.getLast hl := by
  intro l
  induction l with
  | nil => intro s hl _; exact absurd rfl hl
  | cons a t ih =>
    intro s hl h hs q hq hqn
    cases t with
    | nil =>
      rcases List.mem_singleton.mp hq with hqa
      simp [hqa, List.getLast]
    | cons b t' =>
      have h1 : nextEdge G a = some b :=
        beq_iff_eq.mp ((Bool.and_eq_true _ _).mp h).1
      have h2 : chainB G (b :: t') s = true := ((Bool.and_eq_true _ _).mp h).2
      have hsbt : s ∉ b :: t' := hs
      rw [List.getLast_cons (by simp : b :: t' ≠ [])]
      rcases List.mem_cons.mp hq with hqa | hqt
      · subst hqa
        rw [h1] at hqn
        have hbs : b = s := by injection hqn
        exact absurd (hbs ▸ List.mem_cons_self b t') hsbt
      · exact ih s (by simp) h2 (fun hst => hsbt (List.mem_cons_of_mem b hst)) q hqt hqn

theorem chainB_retarget (G G' : HEDIGraph) :
    ∀ (l : List Nat) (s s' : Nat) (hl : l ≠ []), chainB G l s = true →
      (∀ x ∈ l.dropLast, nextEdge G' x = nextEdge G x) →
      nextEdge G' (l.getLast hl) = some s' →
      chainB G' l s' = true := by
  intro l
  induction l with
  | nil => intro s s' hl _; exact absurd rfl hl
  | cons a t ih =>
    intro s s' hl h hdrop hlast
    cases t with
    | nil =>
      simp [chainB]
      simpa [List.getLast] using hlast
    | cons b t' =>
      have h1 : nextEdge G a = some b :=
        beq_iff_eq.mp ((Bool.and_eq_true _ _).mp h).1
      have h2 : chainB G (b :: t') s = true := ((Bool.and_eq_true _ _).mp h).2
      have ha : a ∈ (a :: b :: t').dropLast := by
        rw [List.dropLast_cons₂]
        exact List.mem_cons_self a _
      have h1' : nextEdge G' a = some b := by rw [hdrop a ha, h1]
      have hdrop' : ∀ x ∈ (b :: t').dropLast, nextEdge G' x = nextEdge G x := by
        intro x hx
        apply hdrop
        rw [List.dropLast_cons₂]
        exact List.mem_cons_of_mem a hx
      have hlast' : nextEdge G' ((b :: t').getLast (by simp)) = some s' := by
        rw [← List.getLast_cons (by simp : b :: t' ≠ [])]
        exact hlast
      have := ih s s' (by simp) h2 hdrop' hlast'
      simp [chainB, h1', this]


/-! Correctness of `previous_edge` on a closed boundary cycle. -/

theorem previous_edge_go_chain (G : HEDIGraph) (e : Nat) :
    ∀ (m : List Nat) (hm : m ≠ []) (fuel : Nat), chainB G m e = true →
      e ∉ m.tail → m.length ≤ fuel →
      previous_edge_go G e (m.head hm) fuel = some (m.getLast hm) := by
  intro m
  induction m with
  | nil => intro hm; exact absurd rfl hm
  | cons a t ih =>
    intro hm fuel h he hfuel
    obtain ⟨r, hr⟩ := chainB_mem_present G (a :: t) e h a (List.mem_cons_self a t)
    cases t with
    | nil =>
      have hnext : nextEdge G a = some e := by simpa [chainB] using h
      rw [nextEdge, hr] at hnext
      have hre : r.next = e := by injection hnext
      cases fuel with
      | zero => simp at hfuel
      | succ fuel' =>
        simp [previous_edge_go, List.head, List.getLast, hr, hre]
    | cons b t' =>
      have h1 : nextEdge G a = some b :=
        beq_iff_eq.mp ((Bool.and_eq_true _ _).mp h).1
      have h2 : chainB G (b :: t') e = true := ((Bool.and_eq_true _ _).mp h).2
      rw [nextEdge, hr] at h1
      have hrb : r.next = b := by injection h1
      have hbe : ¬ r.next = e := by
        rw [hrb]
        intro hb
        exact he (hb ▸ List.mem_cons_self b t')
      cases fuel with
      | zero => simp at hfuel
      | succ fuel' =>
        have hstep : previous_edge_go G e (List.head (a :: b :: t') hm) (fuel' + 1) =
            previous_edge_go G e r.next fuel' := by
          simp [previous_edge_go, List.head, hr, hbe]
        rw [hstep, hrb]
        rw [List.getLast_cons (by simp : b :: t' ≠ [])]
        have he' : e ∉ (b :: t').tail := fun hx => he (List.mem_cons_of_mem b hx)
        have hfuel' : (b :: t').length ≤ fuel' := by
          simpa [Nat.succ_le_succ_iff] using hfuel
        exact ih (by simp) fuel' h2 he' hfuel'

theorem previous_edge_chain (G : HEDIGraph) (e : Nat) (rest : List Nat) (fuel : Nat)
    (h : chainB G (e :: rest) e = true) (he : e ∉ rest)
    (hfuel : rest.length + 1 ≤ fuel) :
    previous_edge G e fuel = some ((e :: rest).getLast (by simp)) := by
  obtain ⟨r, hr⟩ := chainB_mem_present G (e :: rest) e h e (List.mem_cons_self e rest)
  have hnext : nextEdge G e = some (rest.headD e) := chainB_head_next G e rest e h
  rw [nextEdge, hr] at hnext
  have hrn : r.next = rest.headD e := by injection hnext
  cases rest with
  | nil =>
    cases fuel with
    | zero => simp at hfuel
    | succ fuel' =>
      simp only [List.headD] at hrn
      simp [previous_edge, previous_edge_go, hr, hrn, List.getLast]
  | cons b t =>
    have h2 : chainB G (b :: t) e = true := ((Bool.and_eq_true _ _).mp h).2
    have hgo := previous_edge_go_chain G e (b :: t) (by simp) fuel h2
      (fun hx => he (List.mem_cons_of_mem b hx))
      (by simp only [List.length_cons] at hfuel ⊢; omega)
    show (match getEdge G e with
      | none => none
      | some r => previous_edge_go G e r.next fuel) = _
    rw [hr]
    show previous_edge_go G e r.next fuel = _
    simp only [List.headD] at hrn
    rw [hrn]
    rw [List.getLast_cons (by simp : b :: t ≠ [])]
    exact hgo


theorem adjOK_of_adjB (G : HEDIGraph) (a b : Nat) (h : adjB G a b = true) : adjOK G a b := by
  unfold adjB at h
  cases ha : getEdge G a with
  | none => rw [ha] at h; simp at h
  | some ra =>
    cases hb : getEdge G b with
    | none => rw [ha, hb] at h; simp at h
    | some rb =>
      rw [ha, hb] at h
      exact ⟨ra, rb, ha, hb, by simpa using h⟩

theorem chain'_of_adjChainB (G : HEDIGraph) :
    ∀ l, adjChainB G l = true → List.Chain' (adjOK G) l := by
  intro l
  induction l with
  | nil => intro _; simp
  | cons a t ih =>
    cases t with
    | nil => intro _; simp
    | cons b t' =>
      intro h
      have h' : (adjB G a b && adjChainB G (b :: t')) = true := h
      rw [List.chain'_cons]
      exact ⟨adjOK_of_adjB G a b ((Bool.and_eq_true _ _).mp h').1,
        ih ((Bool.and_eq_true _ _).mp h').2⟩

/-! Concrete instances used by the witnesses: the triangle scenario of the
spec (vertices 0, 1, 2, a spare vertex 3, three twinned edge pairs, inner
face 0 and outer face 1), and a deliberately corrupted graph whose face-0
next-chain never returns to the representative edge. -/

/-- Triangle diagram: inner face 0 with boundary 0 -> 2 -> 4 -> 0, outer
face 1 with boundary 1 -> 5 -> 3 -> 1, twin pairs (0,1), (2,3), (4,5). -/
def Gtri : HEDIGraph :=
  { edges :=
      [ (0, { src := 0, trg := 1, twin := 1, next := 2, face := 0 }),
        (1, { src := 1, trg := 0, twin := 0, next := 5, face := 1 }),
        (2, { src := 1, trg := 2, twin := 3, next := 4, face := 0 }),
        (3, { src := 2, trg := 1, twin := 2, next := 1, face := 1 }),
        (4, { src := 2, trg := 0, twin := 5, next := 0, face := 0 }),
        (5, { src := 0, trg := 2, twin := 4, next := 3, face := 1 }) ],
    nextEdgeId := 6, verts := [0, 1, 2, 3], nextVertexId := 4,
    faces := [{ edge := 0, idx := 0 }, { edge := 1, idx := 1 }] }

/-- Corrupted diagram: face 0 starts at edge 10, but the next-chain
10 -> 11 -> 12 -> 11 -> 12 -> ... never returns to 10. -/
def Gbad : HEDIGraph :=
  { edges :=
      [ (10, { src := 0, trg := 1, next := 11, face := 0 }),
        (11, { src := 1, trg := 0, next := 12, face := 0 }),
        (12, { src := 0, trg := 1, next := 11, face := 0 }) ],
    nextEdgeId := 13, verts := [0, 1], nextVertexId := 2,
    faces := [{ edge := 10, idx := 0 }] }

/-- Claim C7: for every edge `e` that lies on a finite, closed next-cycle
(the cycle given as `e :: rest` without repetitions), `previous_edge e`
returns the unique edge `p` on that cycle with `next(p) == e`; in
particular `next(previous_edge(e)) == e`, so `previous_edge` is a right
inverse of the next-link on closed boundaries. -/
theorem claim_C7_previous_edge_right_inverse (G : HEDIGraph) (e : Nat) (rest : List Nat)
    (fuel : Nat) (hchain : chainB G (e :: rest) e = true)
    (hnodup : (e :: rest).Nodup) (hfuel : rest.length + 1 ≤ fuel) :
    ∃ p, previous_edge G e fuel = some p ∧ nextEdge G p = some e ∧
      p ∈ e :: rest ∧ (∀ q ∈ e :: rest, nextEdge G q = some e → q = p) := by
  have he : e ∉ rest := (List.nodup_cons.mp hnodup).1
  refine ⟨(e :: rest).getLast (by simp),
    previous_edge_chain G e rest fuel hchain he hfuel, ?_, ?_, ?_⟩
  · exact chainB_getLast_next G (e :: rest) e (by simp) hchain
  · exact List.getLast_mem _
  · intro q hq hqn
    exact chainB_pred_unique G (e :: rest) e (by simp) hchain he q hq hqn

/-- Witness for C7 on the triangle: the predecessor of edge 0 on the inner
face boundary 0 -> 2 -> 4 -> 0 is edge 4. -/
theorem claim_C7_previous_edge_right_inverse_witness :
    ∃ p, previous_edge Gtri 0 10 = some p ∧ nextEdge Gtri p = some 0 ∧
      p ∈ [0, 2, 4] ∧ (∀ q ∈ [0, 2, 4], nextEdge Gtri q = some 0 → q = p) :=
  claim_C7_previous_edge_right_inverse Gtri 0 [2, 4] 10 (by decide) (by decide) (by decide)

/-- Claim C8: `add_face` (with or without payload) returns an index equal
to the face table size at the moment of creation, the table grows by one
(so indices increase monotonically across calls and are never reused),
and the stored payload's `idx` field equals the returned index. -/
theorem claim_C8_add_face_index (G : HEDIGraph) (prop prop2 : FaceRec) :
    (add_face G prop).1 = G.faces.length ∧
    (add_face G prop).2.faces.length = G.faces.length + 1 ∧
    getFace (add_face G prop).2.faces (add_face G prop).1 =
      some { prop with idx := G.faces.length } ∧
    (add_face (add_face G prop).2 prop2).1 = (add_face G prop).1 + 1 ∧
    (add_face0 G).1 = G.faces.length ∧
    (add_face0 G).2.faces.length = G.faces.length + 1 ∧
    getFace (add_face0 G).2.faces (add_face0 G).1 =
      some { edge := 0, idx := G.faces.length } := by
  have hlen : (G.faces ++ [prop]).length - 1 = G.faces.length := by simp
  refine ⟨?_, ?_, ?_, ?_, ?_, ?_, ?_⟩
  · simp [add_face]
  · simp [add_face, setFace_length]
  · simp only [add_face, hlen]
    rw [setFace_append_last]
    exact getFace_append_last G.faces { prop with idx := G.faces.length }
  · simp [add_face, setFace_length]
  · simp [add_face0, add_face]
  · simp [add_face0, add_face, setFace_length]
  · have hlen0 : (G.faces ++ [({} : FaceRec)]).length - 1 = G.faces.length := by simp
    simp only [add_face0, add_face, hlen0]
    rw [setFace_append_last]
    exact getFace_append_last G.faces { edge := 0, idx := G.faces.length }

/-- Claim C5: `twin_edges(e1, e2)` requires `target(e1) == source(e2)` and
`source(e1) == target(e2)`; a violation of either conjunct is a fatal
precondition failure (diagnostic printed / assert report, then abort:
no graph is produced and in particular no twin field is assigned); when
the precondition holds it sets `twin(e1) = e2`, `twin(e2) = e1` and
changes nothing else. -/
theorem claim_C5_twin_edges_precondition (G : HEDIGraph) (e1 e2 : Nat) (r1 r2 : EdgeRec)
    (h1 : getEdge G e1 = some r1) (h2 : getEdge G e2 = some r2) :
    (r1.trg = r2.src → r1.src = r2.trg →
      ∃ G', twin_edges G e1 e2 = some G' ∧
        getEdge G' e1 = some { r1 with twin := e2 } ∧
        getEdge G' e2 = some { r2 with twin := e1 } ∧
        (∀ x, x ≠ e1 → x ≠ e2 → getEdge G' x = getEdge G x) ∧
        G'.faces = G.faces ∧ G'.verts = G.verts ∧
        G'.nextEdgeId = G.nextEdgeId ∧ G'.nextVertexId = G.nextVertexId) ∧
    ((¬ r1.trg = r2.src ∨ ¬ r1.src = r2.trg) → twin_edges G e1 e2 = none) := by
  constructor
  · intro ht hs
    refine ⟨setEdge (setEdge G e1 (fun r => { r with twin := e2 }))
      e2 (fun r => { r with twin := e1 }), ?_, ?_, ?_, ?_, rfl, rfl, rfl, rfl⟩
    · simp [twin_edges, h1, h2, ht, hs]
    · rw [getEdge_setEdge]
      by_cases he : e1 = e2
      · have hr : r1 = r2 := by
          rw [he, h2] at h1
          injection h1 with hv
          exact hv.symm
        subst he
        subst hr
        simp [getEdge_setEdge, h1]
      · rw [if_neg he, getEdge_setEdge, if_pos rfl, h1]
        rfl
    · rw [getEdge_setEdge, if_pos rfl, getEdge_setEdge]
      by_cases he : e2 = e1
      · have hr : r1 = r2 := by
          rw [← he, h2] at h1
          injection h1 with hv
          exact hv.symm
        subst hr
        simp [he, h1]
      · rw [if_neg he, h2]
        rfl
    · intro x hx1 hx2
      rw [getEdge_setEdge, if_neg hx2, getEdge_setEdge, if_neg hx1]
  · intro hd
    rcases hd with hne | hne
    · simp [twin_edges, h1, h2, hne]
    · by_cases htt : r1.trg = r2.src
      · simp [twin_edges, h1, h2, htt, hne]
      · simp [twin_edges, h1, h2, htt]

/-- Witness for C5 on the triangle: twinning the already-compatible pair
(0, 1) succeeds and rewrites exactly the two twin fields; the pair (2, 1)
violates `target(e1) == source(e2)` and aborts with no assignment. -/
theorem claim_C5_twin_edges_precondition_witness :
    (∃ G', twin_edges Gtri 0 1 = some G' ∧
      getEdge G' 0 = some { src := 0, trg := 1, twin := 1, next := 2, face := 0, k := 0 } ∧
      getEdge G' 1 = some { src := 1, trg := 0, twin := 0, next := 5, face := 1, k := 0 } ∧
      (∀ x, x ≠ 0 → x ≠ 1 → getEdge G' x = getEdge Gtri x) ∧
      G'.faces = Gtri.faces ∧ G'.verts = Gtri.verts ∧
      G'.nextEdgeId = Gtri.nextEdgeId ∧ G'.nextVertexId = Gtri.nextVertexId) ∧
    twin_edges Gtri 2 1 = none := by
  constructor
  · exact (claim_C5_twin_edges_precondition Gtri 0 1
      { src := 0, trg := 1, twin := 1, next := 2, face := 0, k := 0 }
      { src := 1, trg := 0, twin := 0, next := 5, face := 1, k := 0 }
      (by decide) (by decide)).1 (by decide) (by decide)
  · exact (claim_C5_twin_edges_precondition Gtri 2 1
      { src := 1, trg := 2, twin := 3, next := 4, face := 0, k := 0 }
      { src := 1, trg := 0, twin := 0, next := 5, face := 1, k := 0 }
      (by decide) (by decide)).2 (Or.inl (by decide))

/-! Machinery for the face-assembly loops: the loops rewrite only `next`,
`face` and `k`, so the structural endpoints of every edge are preserved;
`endsAgree` records that agreement with the base graph. -/

/-- Structural endpoints of an edge descriptor. -/
def ends (G : HEDIGraph) (x : Nat) : Option (Nat × Nat) :=
  (getEdge G x).map (fun r => (r.src, r.trg))

/-- The current graph agrees with the base graph on edge existence and
structural endpoints. -/
def endsAgree (G Gc : HEDIGraph) : Prop :=
  ∀ x, ends Gc x = ends G x

theorem endsAgree_refl (G : HEDIGraph) : endsAgree G G :=
  fun _ => rfl

theorem endsAgree_setEdge (G Gc : HEDIGraph) (a : Nat) (fn : EdgeRec → EdgeRec)
    (hfn : ∀ r, (fn r).src = r.src ∧ (fn r).trg = r.trg)
    (h : endsAgree G Gc) : endsAgree G (setEdge Gc a fn) := by
  intro x
  rw [← h x]
  rw [ends, ends, getEdge_setEdge]
  by_cases hx : x = a
  · subst hx
    rw [if_pos rfl]
    cases hr : getEdge Gc x with
    | none => rfl
    | some r => simp [(hfn r).1, (hfn r).2]
  · rw [if_neg hx]

theorem endsAgree_present (G Gc : HEDIGraph) (x : Nat) (r : EdgeRec)
    (h : endsAgree G Gc) (hx : getEdge G x = some r) :
    ∃ rc, getEdge Gc x = some rc ∧ rc.src = r.src ∧ rc.trg = r.trg := by
  have hex := h x
  rw [ends, ends, hx] at hex
  cases hrc : getEdge Gc x with
  | none => rw [hrc] at hex; simp at hex
  | some rc =>
    rw [hrc] at hex
    simp only [Option.map_some'] at hex
    have hp : (rc.src, rc.trg) = (r.src, r.trg) := by injection hex
    exact ⟨rc, rfl, congrArg Prod.fst hp, congrArg Prod.snd hp⟩

/-- Specification of the `set_next_cycle` loop: starting from any graph that
agrees with the base graph on endpoints, the loop succeeds, links the list
into a `next` chain closing at `begin`, stamps `face` and `k` on every list
element, and touches nothing else. -/
theorem set_next_cycle_go_spec (G : HEDIGraph) (begin f : Nat) (k : Int) :
    ∀ (m : List Nat) (Gc : HEDIGraph), endsAgree G Gc →
      m.Nodup →
      List.Chain' (adjOK G) m →
      (∀ hm : m ≠ [], adjOK G (m.getLast hm) begin) →
      (∀ x ∈ m, ∃ r, getEdge G x = some r) →
      ∃ G', set_next_cycle_go Gc begin f k m = some G' ∧
        endsAgree G G' ∧
        chainB G' m begin = true ∧
        (∀ x ∈ m, ∃ r, getEdge G' x = some r ∧ r.face = f ∧ r.k = k) ∧
        (∀ x, x ∉ m → getEdge G' x = getEdge Gc x) ∧
        G'.faces = Gc.faces ∧ G'.verts = Gc.verts ∧
        G'.nextEdgeId = Gc.nextEdgeId ∧ G'.nextVertexId = Gc.nextVertexId := by
  intro m
  induction m with
  | nil =>
    intro Gc hag _ _ _ _
    exact ⟨Gc, rfl, hag, rfl, by simp, fun x _ => rfl, rfl, rfl, rfl, rfl⟩
  | cons a t ih =>
    intro Gc hag hnd hch hlast hpres
    obtain ⟨ra, hra⟩ := hpres a (List.mem_cons_self a t)
    obtain ⟨rac, hrac, hsrc, htrg⟩ := endsAgree_present G Gc a ra hag hra
    cases t with
    | nil =>
      obtain ⟨ra', rb', hra', hrb', hadj⟩ := hlast (by simp)
      have hra'' : ra' = ra := by
        rw [List.getLast_singleton] at hra'
        rw [hra] at hra'
        injection hra' with hv
        exact hv.symm
      obtain ⟨rbc, hrbc, hbsrc, _⟩ := endsAgree_present G Gc begin rb' hag hrb'
      have hguard : rac.trg = rbc.src := by
        rw [htrg, hbsrc, ← hra'']
        exact hadj
      refine ⟨setEdge (setEdge Gc a (fun r => { r with next := begin }))
        a (fun r => { r with face := f, k := k }), ?_, ?_, ?_, ?_, ?_, rfl, rfl, rfl, rfl⟩
      · simp [set_next_cycle_go, set_next, hrac, hrbc, hguard]
      · exact endsAgree_setEdge G _ a _ (fun r => ⟨rfl, rfl⟩)
          (endsAgree_setEdge G Gc a _ (fun r => ⟨rfl, rfl⟩) hag)
      · simp [chainB, nextEdge, getEdge_setEdge, hrac]
      · intro x hx
        rcases List.mem_singleton.mp hx with hxa
        subst hxa
        refine ⟨{ rac with next := begin, face := f, k := k }, ?_, rfl, rfl⟩
        rw [getEdge_setEdge, if_pos rfl, getEdge_setEdge, if_pos rfl, hrac]
        rfl
      · intro x hx
        have hxa : ¬ x = a := by simpa using hx
        rw [getEdge_setEdge, if_neg hxa, getEdge_setEdge, if_neg hxa]
    | cons b t' =>
      have hch1 : adjOK G a b := (List.chain'_cons.mp hch).1
      have hch2 : List.Chain' (adjOK G) (b :: t') := (List.chain'_cons.mp hch).2
      obtain ⟨ra', rb', hra', hrb', hadj⟩ := hch1
      have hra'' : ra' = ra := by
        rw [hra] at hra'
        injection hra' with hv
        exact hv.symm
      obtain ⟨rbc, hrbc, hbsrc, _⟩ := endsAgree_present G Gc b rb' hag hrb'
      have hguard : rac.trg = rbc.src := by
        rw [htrg, hbsrc, ← hra'']
        exact hadj
      have hstep : set_next Gc a b = some (setEdge Gc a (fun r => { r with next := b })) := by
        simp [set_next, hrac, hrbc, hguard]
      have hanbt : a ∉ b :: t' := (List.nodup_cons.mp hnd).1
      have hag' : endsAgree G (setEdge (setEdge Gc a (fun r => { r with next := b }))
          a (fun r => { r with face := f, k := k })) :=
        endsAgree_setEdge G _ a _ (fun r => ⟨rfl, rfl⟩)
          (endsAgree_setEdge G Gc a _ (fun r => ⟨rfl, rfl⟩) hag)
      have hlast' : ∀ hm : b :: t' ≠ [], adjOK G ((b :: t').getLast hm) begin := by
        intro hm
        have := hlast (by simp)
        rwa [List.getLast_cons hm] at this
      obtain ⟨G', hG', hagG', hchainG', hstampG', hframeG', hfacesG', hvertsG', hidG', hvidG'⟩ :=
        ih (setEdge (setEdge Gc a (fun r => { r with next := b }))
             a (fun r => { r with face := f, k := k }))
          hag' (List.nodup_cons.mp hnd).2 hch2 hlast'
          (fun x hx => hpres x (List.mem_cons_of_mem a hx))
      have hGa : getEdge G' a = some { rac with next := b, face := f, k := k } := by
        rw [hframeG' a hanbt, getEdge_setEdge, if_pos rfl, getEdge_setEdge, if_pos rfl, hrac]
        rfl
      refine ⟨G', ?_, hagG', ?_, ?_, ?_, ?_, ?_, ?_, ?_⟩
      · show set_next_cycle_go Gc begin f k (a :: b :: t') = some G'
        rw [set_next_cycle_go, hstep]
        exact hG'
      · rw [chainB_cons]
        simp only [List.headD]
        rw [nextEdge, hGa]
        simp [hchainG']
      · intro x hx
        rcases List.mem_cons.mp hx with hxa | hxt
        · subst hxa
          exact ⟨_, hGa, rfl, rfl⟩
        · exact hstampG' x hxt
      · intro x hx
        have hx1 : x ∉ b :: t' := fun h => hx (List.mem_cons_of_mem a h)
        have hx2 : ¬ x = a := fun h => hx (h ▸ List.mem_cons_self a _)
        rw [hframeG' x hx1, getEdge_setEdge, if_neg hx2, getEdge_setEdge, if_neg hx2]
      · exact hfacesG'
      · exact hvertsG'
      · exact hidG'
      · exact hvidG'

/-- Specification of the face-stamping `set_next_chain` loop: links the list
into an open chain (no closing link), stamps `face` and `k` on every
element, touches nothing else. -/
theorem set_next_chain_go_spec (G : HEDIGraph) (f : Nat) (k : Int) :
    ∀ (m : List Nat) (Gc : HEDIGraph), endsAgree G Gc →
      m.Nodup →
      List.Chain' (adjOK G) m →
      (∀ x ∈ m, ∃ r, getEdge G x = some r) →
      ∃ G', set_next_chain_go Gc f k m = some G' ∧
        endsAgree G G' ∧
        openChainB G' m = true ∧
        (∀ x ∈ m, ∃ r, getEdge G' x = some r ∧ r.face = f ∧ r.k = k) ∧
        (∀ x, x ∉ m → getEdge G' x = getEdge Gc x) ∧
        G'.faces = Gc.faces ∧ G'.verts = Gc.verts ∧
        G'.nextEdgeId = Gc.nextEdgeId ∧ G'.nextVertexId = Gc.nextVertexId := by
  intro m
  induction m with
  | nil =>
    intro Gc hag _ _ _
    exact ⟨Gc, rfl, hag, rfl, by simp, fun x _ => rfl, rfl, rfl, rfl, rfl⟩
  | cons a t ih =>
    intro Gc hag hnd hch hpres
    obtain ⟨ra, hra⟩ := hpres a (List.mem_cons_self a t)
    obtain ⟨rac, hrac, hsrc, htrg⟩ := endsAgree_present G Gc a ra hag hra
    cases t with
    | nil =>
      refine ⟨setEdge Gc a (fun r => { r with face := f, k := k }),
        rfl, ?_, rfl, ?_, ?_, rfl, rfl, rfl, rfl⟩
      · exact endsAgree_setEdge G Gc a _ (fun r => ⟨rfl, rfl⟩) hag
      · intro x hx
        rcases List.mem_singleton.mp hx with hxa
        subst hxa
        refine ⟨{ rac with face := f, k := k }, ?_, rfl, rfl⟩
        rw [getEdge_setEdge, if_pos rfl, hrac]
        rfl
      · intro x hx
        have hxa : ¬ x = a := by simpa using hx
        rw [getEdge_setEdge, if_neg hxa]
    | cons b t' =>
      have hch1 : adjOK G a b := (List.chain'_cons.mp hch).1
      have hch2 : List.Chain' (adjOK G) (b :: t') := (List.chain'_cons.mp hch).2
      obtain ⟨ra', rb', hra', hrb', hadj⟩ := hch1
      have hra'' : ra' = ra := by
        rw [hra] at hra'
        injection hra' with hv
        exact hv.symm
      obtain ⟨rbc, hrbc, hbsrc, _⟩ := endsAgree_present G Gc b rb' hag hrb'
      have hguard : rac.trg = rbc.src := by
        rw [htrg, hbsrc, ← hra'']
        exact hadj
      have hstep : set_next Gc a b = some (setEdge Gc a (fun r => { r with next := b })) := by
        simp [set_next, hrac, hrbc, hguard]
      have hanbt : a ∉ b :: t' := (List.nodup_cons.mp hnd).1
      have hag' : endsAgree G (setEdge (setEdge Gc a (fun r => { r with next := b }))
          a (fun r => { r with face := f, k := k })) :=
        endsAgree_setEdge G _ a _ (fun r => ⟨rfl, rfl⟩)
          (endsAgree_setEdge G Gc a _ (fun r => ⟨rfl, rfl⟩) hag)
      obtain ⟨G', hG', hagG', hchainG', hstampG', hframeG', hfacesG', hvertsG', hidG', hvidG'⟩ :=
        ih (setEdge (setEdge Gc a (fun r => { r with next := b }))
             a (fun r => { r with face := f, k := k }))
          hag' (List.nodup_cons.mp hnd).2 hch2
          (fun x hx => hpres x (List.mem_cons_of_mem a hx))
      have hGa : getEdge G' a = some { rac with next := b, face := f, k := k } := by
        rw [hframeG' a hanbt, getEdge_setEdge, if_pos rfl, getEdge_setEdge, if_pos rfl, hrac]
        rfl
      refine ⟨G', ?_, hagG', ?_, ?_, ?_, ?_, ?_, ?_, ?_⟩
      · show set_next_chain_go Gc f k (a :: b :: t') = some G'
        rw [set_next_chain_go, hstep]
        exact hG'
      · show (nextEdge G' a == some b && openChainB G' (b :: t')) = true
        rw [nextEdge, hGa]
        simp [hchainG']
      · intro x hx
        rcases List.mem_cons.mp hx with hxa | hxt
        · subst hxa
          exact ⟨_, hGa, rfl, rfl⟩
        · exact hstampG' x hxt
      · intro x hx
        have hx1 : x ∉ b :: t' := fun h => hx (List.mem_cons_of_mem a h)
        have hx2 : ¬ x = a := fun h => hx (h ▸ List.mem_cons_self a _)
        rw [hframeG' x hx1, getEdge_setEdge, if_neg hx2, getEdge_setEdge, if_neg hx2]
      · exact hfacesG'
      · exact hvertsG'
      · exact hidG'
      · exact hvidG'

/-- Top-level specification of `set_next_cycle` on a non-empty list. -/
theorem set_next_cycle_spec (G : HEDIGraph) (x : Nat) (t : List Nat) (f : Nat) (k : Int)
    (fp0 : FaceRec) (hfp : getFace G.faces f = some fp0)
    (hnd : (x :: t).Nodup)
    (hch : List.Chain' (adjOK G) (x :: t))
    (hlast : adjOK G ((x :: t).getLast (by simp)) x)
    (hpres : ∀ y ∈ x :: t, ∃ r, getEdge G y = some r) :
    ∃ G', set_next_cycle G (x :: t) f k = some G' ∧
      chainB G' (x :: t) x = true ∧
      (∀ y ∈ x :: t, ∃ r, getEdge G' y = some r ∧ r.face = f ∧ r.k = k) ∧
      getFace G'.faces f = some { fp0 with edge := x } ∧
      (∀ y, y ∉ x :: t → getEdge G' y = getEdge G y) ∧
      G'.verts = G.verts ∧ G'.nextEdgeId = G.nextEdgeId := by
  have hag0 : endsAgree G { G with faces := setFace G.faces f (fun fp => { fp with edge := x }) } :=
    fun y => rfl
  obtain ⟨G', hG', _, hchain, hstamp, hframe, hfaces, hverts, hid, _⟩ :=
    set_next_cycle_go_spec G x f k (x :: t)
      { G with faces := setFace G.faces f (fun fp => { fp with edge := x }) }
      hag0 hnd hch (fun _ => hlast) hpres
  refine ⟨G', hG', hchain, hstamp, ?_, hframe, hverts, hid⟩
  rw [hfaces]
  show getFace (setFace G.faces f (fun fp => { fp with edge := x })) f = _
  rw [getFace_setFace, if_pos rfl, hfp]
  rfl

/-- Top-level specification of the face-stamping `set_next_chain` on a
non-empty list. -/
theorem set_next_chain_spec (G : HEDIGraph) (x : Nat) (t : List Nat) (f : Nat) (k : Int)
    (fp0 : FaceRec) (hfp : getFace G.faces f = some fp0)
    (hnd : (x :: t).Nodup)
    (hch : List.Chain' (adjOK G) (x :: t))
    (hpres : ∀ y ∈ x :: t, ∃ r, getEdge G y = some r) :
    ∃ G', set_next_chain G (x :: t) f k = some G' ∧
      openChainB G' (x :: t) = true ∧
      (∀ y ∈ x :: t, ∃ r, getEdge G' y = some r ∧ r.face = f ∧ r.k = k) ∧
      getFace G'.faces f = some { fp0 with edge := x } ∧
      (∀ y, y ∉ x :: t → getEdge G' y = getEdge G y) ∧
      G'.verts = G.verts ∧ G'.nextEdgeId = G.nextEdgeId := by
  have hag0 : endsAgree G { G with faces := setFace G.faces f (fun fp => { fp with edge := x }) } :=
    fun y => rfl
  obtain ⟨G', hG', _, hchain, hstamp, hframe, hfaces, hverts, hid, _⟩ :=
    set_next_chain_go_spec G f k (x :: t)
      { G with faces := setFace G.faces f (fun fp => { fp with edge := x }) }
      hag0 hnd hch hpres
  refine ⟨G', hG', hchain, hstamp, ?_, hframe, hverts, hid⟩
  rw [hfaces]
  show getFace (setFace G.faces f (fun fp => { fp with edge := x })) f = _
  rw [getFace_setFace, if_pos rfl, hfp]
  rfl

/-- Claim C4: `set_next_cycle` on a non-empty edge list `e1..en` with face
`f` and coefficient `k` sets `next(ei) = e(i+1)` for consecutive pairs,
closes the cycle with `next(en) = e1`, stamps `face = f` and `k = k` on
every listed edge, and sets the face's representative edge
`faces[f].edge` to `e1`, the first element. -/
theorem claim_C4_set_next_cycle_assembles (G : HEDIGraph) (x : Nat) (t : List Nat)
    (f : Nat) (k : Int) (fp0 : FaceRec) (hfp : getFace G.faces f = some fp0)
    (hnd : (x :: t).Nodup)
    (hch : adjChainB G (x :: t) = true)
    (hlast : adjB G ((x :: t).getLast (by simp)) x = true)
    (hpres : ∀ y ∈ x :: t, (getEdge G y).isSome = true) :
    ∃ G', set_next_cycle G (x :: t) f k = some G' ∧
      chainB G' (x :: t) x = true ∧
      (∀ y ∈ x :: t, ∃ r, getEdge G' y = some r ∧ r.face = f ∧ r.k = k) ∧
      (∃ fp, getFace G'.faces f = some fp ∧ fp.edge = x) := by
  obtain ⟨G', h1, h2, h3, h4, _, _, _⟩ :=
    set_next_cycle_spec G x t f k fp0 hfp hnd (chain'_of_adjChainB G _ hch)
      (adjOK_of_adjB G _ _ hlast)
      (fun y hy => Option.isSome_iff_exists.mp (hpres y hy))
  exact ⟨G', h1, h2, h3, ⟨_, h4, rfl⟩⟩

/-- Witness for C4: assembling the triangle's inner face from [0, 2, 4]
with coefficient 7. -/
theorem claim_C4_set_next_cycle_assembles_witness :
    ∃ G', set_next_cycle Gtri [0, 2, 4] 0 7 = some G' ∧
      chainB G' [0, 2, 4] 0 = true ∧
      (∀ y ∈ [0, 2, 4], ∃ r, getEdge G' y = some r ∧ r.face = 0 ∧ r.k = 7) ∧
      (∃ fp, getFace G'.faces 0 = some fp ∧ fp.edge = 0) :=
  claim_C4_set_next_cycle_assembles Gtri 0 [2, 4] 0 7 { edge := 0, idx := 0 }
    (by decide) (by decide) (by decide) (by decide) (by decide)

/-- Claim C10: the face-stamping `set_next_chain(list, f, k)` links the
consecutive edges into an open chain and stamps `face` and `k` on every
edge, and it also overwrites the face's representative edge:
`faces[f].edge` becomes the first element of the list, even though the
chain is not closed. -/
theorem claim_C10_set_next_chain_rep_edge (G : HEDIGraph) (x : Nat) (t : List Nat)
    (f : Nat) (k : Int) (fp0 : FaceRec) (hfp : getFace G.faces f = some fp0)
    (hnd : (x :: t).Nodup)
    (hch : adjChainB G (x :: t) = true)
    (hpres : ∀ y ∈ x :: t, (getEdge G y).isSome = true) :
    ∃ G', set_next_chain G (x :: t) f k = some G' ∧
      openChainB G' (x :: t) = true ∧
      (∀ y ∈ x :: t, ∃ r, getEdge G' y = some r ∧ r.face = f ∧ r.k = k) ∧
      (∃ fp, getFace G'.faces f = some fp ∧ fp.edge = x) := by
  obtain ⟨G', h1, h2, h3, h4, _, _, _⟩ :=
    set_next_chain_spec G x t f k fp0 hfp hnd (chain'_of_adjChainB G _ hch)
      (fun y hy => Option.isSome_iff_exists.mp (hpres y hy))
  exact ⟨G', h1, h2, h3, ⟨_, h4, rfl⟩⟩

/-- Witness for C10: stamping the open chain [0, 2] onto face 0 with
coefficient 5 rewrites the representative edge to 0. -/
theorem claim_C10_set_next_chain_rep_edge_witness :
    ∃ G', set_next_chain Gtri [0, 2] 0 5 = some G' ∧
      openChainB G' [0, 2] = true ∧
      (∀ y ∈ [0, 2], ∃ r, getEdge G' y = some r ∧ r.face = 0 ∧ r.k = 5) ∧
      (∃ fp, getFace G'.faces 0 = some fp ∧ fp.edge = 0) :=
  claim_C10_set_next_chain_rep_edge Gtri 0 [2] 0 5 { edge := 0, idx := 0 }
    (by decide) (by decide) (by decide) (by decide)

/-- Claim C9: `set_next_cycle` and the face-stamping `set_next_chain` both
dereference `list.begin()` to set `faces[f].edge` before any emptiness
check, so on the empty list the operation is undefined (modelled `none`);
on a non-empty list satisfying the linking preconditions every list access
is in bounds and both operations run to completion. -/
theorem claim_C9_empty_list_undefined (G : HEDIGraph) (f : Nat) (k : Int) (x : Nat)
    (t : List Nat) (fp0 : FaceRec) (hfp : getFace G.faces f = some fp0)
    (hnd : (x :: t).Nodup)
    (hch : adjChainB G (x :: t) = true)
    (hlast : adjB G ((x :: t).getLast (by simp)) x = true)
    (hpres : ∀ y ∈ x :: t, (getEdge G y).isSome = true) :
    set_next_cycle G [] f k = none ∧
    set_next_chain G [] f k = none ∧
    (set_next_cycle G (x :: t) f k).isSome = true ∧
    (set_next_chain G (x :: t) f k).isSome = true := by
  have hpres' : ∀ y ∈ x :: t, ∃ r, getEdge G y = some r :=
    fun y hy => Option.isSome_iff_exists.mp (hpres y hy)
  obtain ⟨G1, h1, _⟩ := set_next_cycle_spec G x t f k fp0 hfp hnd
    (chain'_of_adjChainB G _ hch) (adjOK_of_adjB G _ _ hlast) hpres'
  obtain ⟨G2, h2, _⟩ := set_next_chain_spec G x t f k fp0 hfp hnd
    (chain'_of_adjChainB G _ hch) hpres'
  exact ⟨rfl, rfl, by rw [h1]; rfl, by rw [h2]; rfl⟩

/-- Witness for C9 on the triangle. -/
theorem claim_C9_empty_list_undefined_witness :
    set_next_cycle Gtri [] 0 3 = none ∧
    set_next_chain Gtri [] 0 3 = none ∧
    (set_next_cycle Gtri [0, 2, 4] 0 3).isSome = true ∧
    (set_next_chain Gtri [0, 2, 4] 0 3).isSome = true :=
  claim_C9_empty_list_undefined Gtri 0 3 0 [2, 4] { edge := 0, idx := 0 }
    (by decide) (by decide) (by decide) (by decide) (by decide)

/-! Iterator lemmas. -/

theorem iter_collect_at_start (G : HEDIGraph) (start : Nat) (fuel : Nat) :
    iter_collect G ⟨start, false⟩ ⟨start, true⟩ fuel = some [] := by
  cases fuel with
  | zero => simp [iter_collect, iter_equal]
  | succ fuel' => simp [iter_collect, iter_equal]

theorem iter_collect_chain (G : HEDIGraph) (start : Nat) :
    ∀ (m : List Nat) (hm : m ≠ []) (fuel : Nat),
      chainB G m start = true → start ∉ m → m.length ≤ fuel →
      iter_collect G ⟨start, false⟩ ⟨m.head hm, true⟩ fuel = some m := by
  intro m
  induction m with
  | nil => intro hm; exact absurd rfl hm
  | cons a t ih =>
    intro hm fuel h hs hfuel
    obtain ⟨ra, hra⟩ := chainB_mem_present G (a :: t) start h a (List.mem_cons_self a t)
    have hnext : nextEdge G a = some (t.headD start) := chainB_head_next G a t start h
    rw [nextEdge, hra] at hnext
    have hrn : ra.next = t.headD start := by injection hnext
    have has : ¬ a == start := by
      simp only [beq_iff_eq]
      intro hcontra
      exact hs (hcontra ▸ List.mem_cons_self a t)
    cases fuel with
    | zero => simp at hfuel
    | succ fuel' =>
      have hne : iter_equal ⟨a, true⟩ ⟨start, false⟩ = false := by
        simp only [iter_equal]
        simp [beq_iff_eq]
        intro hcontra
        exact hs (hcontra ▸ List.mem_cons_self a t)
      have hinc : iter_increment G ⟨a, true⟩ = some ⟨ra.next, true⟩ := by
        simp [iter_increment, hra]
      cases t with
      | nil =>
        simp only [List.headD] at hrn
        simp only [List.head_cons]
        simp [iter_collect, hne, hinc, hrn, iter_collect_at_start]
      | cons b t' =>
        simp only [List.headD] at hrn
        have h2 : chainB G (b :: t') start = true := ((Bool.and_eq_true _ _).mp h).2
        have hrec := ih (by simp) fuel' h2
          (fun hx => hs (List.mem_cons_of_mem a hx))
          (by simp only [List.length_cons] at hfuel ⊢; omega)
        rw [show ((b :: t').head (by simp)) = b from rfl] at hrec
        simp only [List.head_cons]
        simp [iter_collect, hne, hinc, hrn, hrec]

/-- Claim C6: the boundary iterator pair of `face_edges_itr` over a face
whose next-chain from `faces[f].edge` closes after `n` steps yields exactly
the `n` boundary edges: it starts with `faces[f].edge`, then follows the
successive `next` edges, and terminates exactly when the computed next
edge equals the starting edge; the `m_inc` has-stepped flag keeps the
start-equals-end test from terminating the sequence before the first
element is yielded (the start edge itself is the first yield). -/
theorem claim_C6_edge_iterator_walk (G : HEDIGraph) (f : Nat) (fp : FaceRec)
    (rest : List Nat) (fuel : Nat)
    (hfp : getFace G.faces f = some fp)
    (hchain : chainB G (fp.edge :: rest) fp.edge = true)
    (hnodup : (fp.edge :: rest).Nodup)
    (hfuel : rest.length + 1 ≤ fuel) :
    ∃ bIt eIt, face_edges_itr G f = some (bIt, eIt) ∧
      bIt.m_edge = fp.edge ∧ bIt.m_inc = false ∧
      iter_collect G eIt bIt fuel = some (fp.edge :: rest) ∧
      (fp.edge :: rest).length = rest.length + 1 := by
  have hitr : face_edges_itr G f = some (⟨fp.edge, false⟩, ⟨fp.edge, false⟩) := by
    simp [face_edges_itr, hfp]
  refine ⟨⟨fp.edge, false⟩, ⟨fp.edge, false⟩, hitr, rfl, rfl, ?_, by simp⟩
  obtain ⟨re, hre⟩ :=
    chainB_mem_present G (fp.edge :: rest) fp.edge hchain fp.edge (List.mem_cons_self _ _)
  have hnext : nextEdge G fp.edge = some (rest.headD fp.edge) :=
    chainB_head_next G fp.edge rest fp.edge hchain
  rw [nextEdge, hre] at hnext
  have hrn : re.next = rest.headD fp.edge := by injection hnext
  have hs : fp.edge ∉ rest := (List.nodup_cons.mp hnodup).1
  cases fuel with
  | zero => simp at hfuel
  | succ fuel' =>
    have hne : iter_equal ⟨fp.edge, false⟩ ⟨fp.edge, false⟩ = false := by
      simp [iter_equal]
    have hinc : iter_increment G ⟨fp.edge, false⟩ = some ⟨re.next, true⟩ := by
      simp [iter_increment, hre]
    cases rest with
    | nil =>
      simp only [List.headD] at hrn
      simp [iter_collect, hne, hinc, hrn, iter_collect_at_start]
    | cons b t =>
      simp only [List.headD] at hrn
      have h2 : chainB G (b :: t) fp.edge = true := ((Bool.and_eq_true _ _).mp hchain).2
      have hrec := iter_collect_chain G fp.edge (b :: t) (by simp) fuel' h2 hs
        (by simp only [List.length_cons] at hfuel ⊢; omega)
      rw [show ((b :: t).head (by simp)) = b from rfl] at hrec
      simp [iter_collect, hne, hinc, hrn, hrec]

/-- Witness for C6: on the triangle, the iterator over face 0 yields
exactly [0, 2, 4]. -/
theorem claim_C6_edge_iterator_walk_witness :
    ∃ bIt eIt, face_edges_itr Gtri 0 = some (bIt, eIt) ∧
      bIt.m_edge = (0 : Nat) ∧ bIt.m_inc = false ∧
      iter_collect Gtri eIt bIt 3 = some [0, 2, 4] ∧
      ([0, 2, 4] : List Nat).length = 3 :=
  claim_C6_edge_iterator_walk Gtri 0 { edge := 0, idx := 0 } [2, 4] 3
    (by decide) (by decide) (by decide) (by decide)

/-! Boundary-walk lemmas for `face_vertices` and `face_edges`. -/

theorem face_vertices_go_chain (G : HEDIGraph) (start : Nat) (c : Nat) (rs : EdgeRec)
    (hstart : getEdge G start = some rs) (hsface : rs.face = c) :
    ∀ (m : List Nat) (hm : m ≠ []) (acc : List Nat) (fuel : Nat),
      chainB G m start = true → start ∉ m → m.length ≤ fuel →
      (∀ x ∈ m, ∀ r, getEdge G x = some r → r.face = c) →
      ∃ vs, face_vertices_go G start (m.head hm) acc fuel = WalkResult.ok vs := by
  intro m
  induction m with
  | nil => intro hm; exact absurd rfl hm
  | cons a t ih =>
    intro hm acc fuel h hs hfuel hface
    obtain ⟨ra, hra⟩ := chainB_mem_present G (a :: t) start h a (List.mem_cons_self a t)
    have hfa : ra.face = c := hface a (List.mem_cons_self a t) ra hra
    have hnext : nextEdge G a = some (t.headD start) := chainB_head_next G a t start h
    rw [nextEdge, hra] at hnext
    have hrn : ra.next = t.headD start := by injection hnext
    cases fuel with
    | zero => simp at hfuel
    | succ fuel' =>
      cases t with
      | nil =>
        simp only [List.headD] at hrn
        refine ⟨acc ++ [ra.trg], ?_⟩
        simp only [List.head_cons]
        simp [face_vertices_go, hra, hrn, hstart, hfa, hsface]
      | cons b t' =>
        simp only [List.headD] at hrn
        obtain ⟨rb, hrb⟩ :=
          chainB_mem_present G (a :: b :: t') start h b (List.mem_cons_of_mem a (List.mem_cons_self b t'))
        have hfb : rb.face = c :=
          hface b (List.mem_cons_of_mem a (List.mem_cons_self b t')) rb hrb
        have hbs : ¬ b = start := fun hx => hs (hx ▸ List.mem_cons_of_mem a (List.mem_cons_self b t'))
        have h2 : chainB G (b :: t') start = true := ((Bool.and_eq_true _ _).mp h).2
        obtain ⟨vs, hvs⟩ := ih (by simp) (acc ++ [ra.trg]) fuel' h2
          (fun hx => hs (List.mem_cons_of_mem a hx))
          (by simp only [List.length_cons] at hfuel ⊢; omega)
          (fun x hx r hr => hface x (List.mem_cons_of_mem a hx) r hr)
        refine ⟨vs, ?_⟩
        simp only [List.head_cons] at hvs ⊢
        simp [face_vertices_go, hra, hrn, hrb, hfa, hfb, hbs, hvs]

theorem face_edges_go_chain (G : HEDIGraph) (start : Nat) :
    ∀ (m : List Nat) (hm : m ≠ []) (acc : List Nat) (fuel : Nat),
      chainB G m start = true → start ∉ m → m.length ≤ fuel →
      ∃ es, face_edges_go G start (m.head hm) acc fuel = Walk2.ok es := by
  intro m
  induction m with
  | nil => intro hm; exact absurd rfl hm
  | cons a t ih =>
    intro hm acc fuel h hs hfuel
    obtain ⟨ra, hra⟩ := chainB_mem_present G (a :: t) start h a (List.mem_cons_self a t)
    have hnext : nextEdge G a = some (t.headD start) := chainB_head_next G a t start h
    rw [nextEdge, hra] at hnext
    have hrn : ra.next = t.headD start := by injection hnext
    cases fuel with
    | zero => simp at hfuel
    | succ fuel' =>
      cases t with
      | nil =>
        simp only [List.headD] at hrn
        refine ⟨acc ++ [a], ?_⟩
        simp only [List.head_cons]
        simp [face_edges_go, hra, hrn]
      | cons b t' =>
        simp only [List.headD] at hrn
        have hbs : ¬ b = start := fun hx => hs (hx ▸ List.mem_cons_of_mem a (List.mem_cons_self b t'))
        have h2 : chainB G (b :: t') start = true := ((Bool.and_eq_true _ _).mp h).2
        obtain ⟨es, hes⟩ := ih (by simp) (acc ++ [a]) fuel' h2
          (fun hx => hs (List.mem_cons_of_mem a hx))
          (by simp only [List.length_cons] at hfuel ⊢; omega)
        refine ⟨es, ?_⟩
        simp only [List.head_cons] at hes ⊢
        simp [face_edges_go, hra, hrn, hbs, hes]

/-! The corrupted walk on `Gbad`: `face_vertices` hits its internal
3000000-step cap, while `face_edges` keeps looping whatever budget it
gets, because its loop has no guard in the source. -/

theorem Gbad_face_vertices_go_loops :
    ∀ (fuel : Nat) (acc : List Nat) (cur : Nat), cur = 11 ∨ cur = 12 →
      face_vertices_go Gbad 10 cur acc fuel = WalkResult.guardExceeded := by
  intro fuel
  induction fuel with
  | zero =>
    intro acc cur h
    rcases h with h | h <;> subst h <;> rfl
  | succ n ih =>
    intro acc cur h
    rcases h with h | h <;> subst h
    · exact ih (acc ++ [0]) 12 (Or.inr rfl)
    · exact ih (acc ++ [1]) 11 (Or.inl rfl)

theorem Gbad_face_edges_go_loops :
    ∀ (fuel : Nat) (acc : List Nat) (cur : Nat), cur = 11 ∨ cur = 12 →
      face_edges_go Gbad 10 cur acc fuel = Walk2.stillLooping := by
  intro fuel
  induction fuel with
  | zero => intro acc cur _; rfl
  | succ n ih =>
    intro acc cur h
    rcases h with h | h <;> subst h
    · exact ih (acc ++ [11]) 12 (Or.inr rfl)
    · exact ih (acc ++ [12]) 11 (Or.inl rfl)

/-- Counterexample to claim C3 as stated: on the concrete corrupted graph
`Gbad` (face 0, next-chain 10 -> 11 -> 12 -> 11 -> ...), `face_vertices`
does cap the walk and reports the guard-exceeded failure, but `face_edges`
has no guard at all in the source: with any step budget whatsoever it is
still looping, so it does not cap the walk at any fixed bound and never
reports. -/
theorem claim_C3_counterexample_face_edges_unguarded :
    face_vertices Gbad 0 = WalkResult.guardExceeded ∧
    face_edges_diverges Gbad 0 := by
  constructor
  · exact Gbad_face_vertices_go_loops 3000000 [1] 11 (Or.inl rfl)
  · intro fuel
    cases fuel with
    | zero => rfl
    | succ n => exact Gbad_face_edges_go_loops n [10] 11 (Or.inl rfl)

/-- Claim C3 as amended: `face_vertices` caps its boundary walk at the
fixed internal bound of 3000000 steps and reports a fatal
internal-consistency failure (`guardExceeded`) instead of looping forever,
and for every face whose next-chain from the representative edge closes
within the bound the guard branch is unreachable (the walk returns
normally); `face_edges` performs the same walk but carries no guard: it
terminates normally on closed chains (given enough external budget)
and loops indefinitely on broken ones. -/
theorem claim_C3_walk_guards_amended (G : HEDIGraph) (f : Nat) (fp : FaceRec)
    (rest : List Nat) (c : Nat)
    (hfp : getFace G.faces f = some fp)
    (hchain : chainB G (fp.edge :: rest) fp.edge = true)
    (hnodup : (fp.edge :: rest).Nodup)
    (hbound : rest.length + 1 ≤ 3000000)
    (hface : ∀ x ∈ fp.edge :: rest, ∀ r, getEdge G x = some r → r.face = c) :
    (∃ vs, face_vertices G f = WalkResult.ok vs) ∧
    (∀ fuel, rest.length + 1 ≤ fuel → ∃ es, face_edges G f fuel = Walk2.ok es) := by
  obtain ⟨re, hre⟩ :=
    chainB_mem_present G (fp.edge :: rest) fp.edge hchain fp.edge (List.mem_cons_self _ _)
  have hfe : re.face = c := hface fp.edge (List.mem_cons_self _ _) re hre
  have hnext : nextEdge G fp.edge = some (rest.headD fp.edge) :=
    chainB_head_next G fp.edge rest fp.edge hchain
  rw [nextEdge, hre] at hnext
  have hrn : re.next = rest.headD fp.edge := by injection hnext
  have hs : fp.edge ∉ rest := (List.nodup_cons.mp hnodup).1
  constructor
  · cases rest with
    | nil =>
      simp only [List.headD] at hrn
      refine ⟨[re.trg, re.trg], ?_⟩
      simp only [face_vertices, hfp, hre]
      rw [hrn]
      simp [face_vertices_go, hre, hrn, hfe]
    | cons b t =>
      simp only [List.headD] at hrn
      have h2 : chainB G (b :: t) fp.edge = true := ((Bool.and_eq_true _ _).mp hchain).2
      obtain ⟨vs, hvs⟩ := face_vertices_go_chain G fp.edge c re hre hfe (b :: t) (by simp)
        [re.trg] 3000000 h2 hs
        (by simp only [List.length_cons] at hbound ⊢; omega)
        (fun x hx r hr => hface x (List.mem_cons_of_mem _ hx) r hr)
      refine ⟨vs, ?_⟩
      simp only [face_vertices, hfp, hre]
      rw [hrn]
      rw [show ((b :: t).head (by simp)) = b from rfl] at hvs
      exact hvs
  · intro fuel hfuel
    cases fuel with
    | zero => simp at hfuel
    | succ n =>
      cases rest with
      | nil =>
        simp only [List.headD] at hrn
        refine ⟨[fp.edge], ?_⟩
        simp only [face_edges, hfp]
        simp [face_edges_go, hre, hrn]
      | cons b t =>
        simp only [List.headD] at hrn
        have h2 : chainB G (b :: t) fp.edge = true := ((Bool.and_eq_true _ _).mp hchain).2
        have hbs : ¬ b = fp.edge := fun hx => hs (hx ▸ List.mem_cons_self b t)
        obtain ⟨es, hes⟩ := face_edges_go_chain G fp.edge (b :: t) (by simp)
          [fp.edge] n h2 hs
          (by simp only [List.length_cons] at hfuel ⊢; omega)
        refine ⟨es, ?_⟩
        simp only [face_edges, hfp]
        rw [show ((b :: t).head (by simp)) = b from rfl] at hes
        simp [face_edges_go, hre, hrn, hbs, hes]

/-- Witness for the amended C3 on the triangle: face 0 closes in 3 steps,
well within the cap, so `face_vertices` returns normally and `face_edges`
closes with any budget of at least 3. -/
theorem claim_C3_walk_guards_amended_witness :
    (∃ vs, face_vertices Gtri 0 = WalkResult.ok vs) ∧
    (∀ fuel, 3 ≤ fuel → ∃ es, face_edges Gtri 0 fuel = Walk2.ok es) :=
  claim_C3_walk_guards_amended Gtri 0 { edge := 0, idx := 0 } [2, 4] 0
    (by decide) (by decide) (by decide) (by decide) (by decide)

/-! Full specification of `insert_vertex_in_edge` (split_edge).  The four
new descriptors are `e1 = nid`, `e2 = nid+1`, `te1 = nid+2`, `te2 = nid+3`
where `nid` is the fresh-descriptor counter of the input graph. -/

theorem mem_updateEdges (e : Nat) (f : EdgeRec → EdgeRec) :
    ∀ (l : List (Nat × EdgeRec)) (p : Nat × EdgeRec), p ∈ updateEdges l e f →
      ∃ q ∈ l, p.1 = q.1 := by
  intro l
  induction l with
  | nil => intro p hp; simp [updateEdges] at hp
  | cons x t ih =>
    intro p hp
    rw [updateEdges] at hp
    rcases List.mem_cons.mp hp with h1 | h2
    · by_cases hx : x.1 = e
      · rw [if_pos hx] at h1
        exact ⟨x, List.mem_cons_self _ _, by rw [h1]⟩
      · rw [if_neg hx] at h1
        exact ⟨x, List.mem_cons_self _ _, by rw [h1]⟩
    · obtain ⟨q, hq, hpq⟩ := ih p h2
      exact ⟨q, List.mem_cons_of_mem _ hq, hpq⟩

theorem getEdge_add_edge_eq (G : HEDIGraph) (v1 v2 : Nat) (hf : freshEdges G) :
    getEdge (add_edge G v1 v2).2 G.nextEdgeId = some { src := v1, trg := v2 } := by
  rw [getEdge_add_edge _ _ _ _ hf, if_pos rfl]

theorem getEdge_add_edge_ne (G : HEDIGraph) (v1 v2 b : Nat) (hf : freshEdges G)
    (hb : ¬ b = G.nextEdgeId) : getEdge (add_edge G v1 v2).2 b = getEdge G b := by
  rw [getEdge_add_edge _ _ _ _ hf, if_neg hb]

theorem add_edge_fst (G : HEDIGraph) (v1 v2 : Nat) :
    (add_edge G v1 v2).1 = G.nextEdgeId := rfl

theorem add_edge_nextEdgeId (G : HEDIGraph) (v1 v2 : Nat) :
    (add_edge G v1 v2).2.nextEdgeId = G.nextEdgeId + 1 := rfl

theorem add_edge_faces (G : HEDIGraph) (v1 v2 : Nat) :
    (add_edge G v1 v2).2.faces = G.faces := rfl

theorem add_edge_verts (G : HEDIGraph) (v1 v2 : Nat) :
    (add_edge G v1 v2).2.verts = G.verts := rfl

theorem add_edge_nextVertexId (G : HEDIGraph) (v1 v2 : Nat) :
    (add_edge G v1 v2).2.nextVertexId = G.nextVertexId := rfl

theorem setEdge_nextVertexId (G : HEDIGraph) (a : Nat) (f : EdgeRec → EdgeRec) :
    (setEdge G a f).nextVertexId = G.nextVertexId := rfl

theorem remove_edge_faces (G : HEDIGraph) (a : Nat) :
    (remove_edge G a).faces = G.faces := rfl

theorem remove_edge_verts (G : HEDIGraph) (a : Nat) :
    (remove_edge G a).verts = G.verts := rfl

theorem remove_edge_nextEdgeId (G : HEDIGraph) (a : Nat) :
    (remove_edge G a).nextEdgeId = G.nextEdgeId := rfl

theorem remove_edge_nextVertexId (G : HEDIGraph) (a : Nat) :
    (remove_edge G a).nextVertexId = G.nextVertexId := rfl

theorem getEdge_set_face_edge (G : HEDIGraph) (f e b : Nat) :
    getEdge (set_face_edge G f e) b = getEdge G b := rfl

theorem set_face_edge_faces (G : HEDIGraph) (f e : Nat) :
    (set_face_edge G f e).faces = setFace G.faces f (fun fp => { fp with edge := e }) := rfl

theorem set_face_edge_verts (G : HEDIGraph) (f e : Nat) :
    (set_face_edge G f e).verts = G.verts := rfl

theorem set_face_edge_nextEdgeId (G : HEDIGraph) (f e : Nat) :
    (set_face_edge G f e).nextEdgeId = G.nextEdgeId := rfl

theorem set_face_edge_nextVertexId (G : HEDIGraph) (f e : Nat) :
    (set_face_edge G f e).nextVertexId = G.nextVertexId := rfl

theorem freshEdges_setEdge (G : HEDIGraph) (a : Nat) (fn : EdgeRec → EdgeRec)
    (h : freshEdges G) : freshEdges (setEdge G a fn) := by
  intro p hp
  obtain ⟨q, hq, hpq⟩ := mem_updateEdges a fn G.edges p hp
  rw [setEdge_nextEdgeId, hpq]
  exact h q hq

theorem freshEdges_add_edge (G : HEDIGraph) (v1 v2 : Nat)
    (h : freshEdges G) : freshEdges (add_edge G v1 v2).2 := by
  intro p hp
  rw [add_edge_nextEdgeId]
  rcases List.mem_append.mp hp with h1 | h2
  · have := h p h1
    omega
  · rcases List.mem_singleton.mp h2 with h3
    rw [h3]
    simp

set_option maxHeartbeats 40000000 in
theorem insert_vertex_in_edge_spec (fuel : Nat) (G : HEDIGraph) (v e : Nat)
    (er tr pr tpr : EdgeRec) (prev tprev : Nat)
    (hfresh : freshEdges G)
    (he : getEdge G e = some er)
    (ht : getEdge G er.twin = some tr)
    (hs1 : er.src = tr.trg) (hs2 : er.trg = tr.src)
    (hprev : previous_edge G e fuel = some prev)
    (hpr : getEdge G prev = some pr) (hprf : pr.face = er.face)
    (htprev : previous_edge G er.twin fuel = some tprev)
    (htpr : getEdge G tprev = some tpr) (htprf : tpr.face = tr.face)
    (hff : er.face ≠ tr.face)
    (hpe : prev ≠ e) (htpt : tprev ≠ er.twin) (het : e ≠ er.twin) :
    ∃ G', insert_vertex_in_edge fuel G v e = some G' ∧
      getEdge G' G.nextEdgeId =
        some { src := er.src, trg := v, twin := G.nextEdgeId + 3,
               next := G.nextEdgeId + 1, face := er.face, k := 0 } ∧
      getEdge G' (G.nextEdgeId + 1) =
        some { src := v, trg := er.trg, twin := G.nextEdgeId + 2,
               next := er.next, face := er.face, k := 0 } ∧
      getEdge G' (G.nextEdgeId + 2) =
        some { src := tr.src, trg := v, twin := G.nextEdgeId + 1,
               next := G.nextEdgeId + 3, face := tr.face, k := 0 } ∧
      getEdge G' (G.nextEdgeId + 3) =
        some { src := v, trg := tr.trg, twin := G.nextEdgeId,
               next := tr.next, face := tr.face, k := 0 } ∧
      getEdge G' prev = some { pr with next := G.nextEdgeId } ∧
      getEdge G' tprev = some { tpr with next := G.nextEdgeId + 2 } ∧
      getEdge G' e = none ∧
      getEdge G' er.twin = none ∧
      (∀ x, x ≠ e → x ≠ er.twin → x ≠ prev → x ≠ tprev →
        x ≠ G.nextEdgeId → x ≠ G.nextEdgeId + 1 →
        x ≠ G.nextEdgeId + 2 → x ≠ G.nextEdgeId + 3 →
        getEdge G' x = getEdge G x) ∧
      getFace G'.faces er.face =
        (getFace G.faces er.face).map (fun fp => { fp with edge := G.nextEdgeId }) ∧
      getFace G'.faces tr.face =
        (getFace G.faces tr.face).map (fun fp => { fp with edge := G.nextEdgeId + 2 }) ∧
      G'.faces.length = G.faces.length ∧
      G'.verts = G.verts ∧ G'.nextVertexId = G.nextVertexId ∧
      G'.nextEdgeId = G.nextEdgeId + 4 := by
  have h_e_lt : e < G.nextEdgeId := getEdge_lt_of_fresh G e er hfresh he
  have h_w_lt : er.twin < G.nextEdgeId := getEdge_lt_of_fresh G er.twin tr hfresh ht
  have h_p_lt : prev < G.nextEdgeId := getEdge_lt_of_fresh G prev pr hfresh hpr
  have h_tp_lt : tprev < G.nextEdgeId := getEdge_lt_of_fresh G tprev tpr hfresh htpr
  have hptw : prev ≠ er.twin := by
    intro hc
    rw [hc, ht] at hpr
    injection hpr with hv
    exact hff (by rw [← hprf, ← hv])
  have htpe : tprev ≠ e := by
    intro hc
    rw [hc, he] at htpr
    injection htpr with hv
    exact hff (by rw [← htprf, ← hv])
  have hptp : prev ≠ tprev := by
    intro hc
    rw [hc, htpr] at hpr
    injection hpr with hv
    exact hff (by rw [← hprf, ← hv]; exact htprf)
  -- lookup-level copies of the record hypotheses
  have he' : lookupEdge G.edges e = some er := he
  have ht' : lookupEdge G.edges er.twin = some tr := ht
  have hpr' : lookupEdge G.edges prev = some pr := hpr
  have htpr' : lookupEdge G.edges tprev = some tpr := htpr
  -- fresh descriptors are not in the original store
  have hn0 : lookupEdge G.edges G.nextEdgeId = none :=
    lookupEdge_none_of_fresh G.edges _ hfresh
  have hn1 : lookupEdge G.edges (G.nextEdgeId + 1) = none :=
    lookupEdge_none_of_fresh G.edges _ (fun p hp => by have := hfresh p hp; omega)
  have hn2 : lookupEdge G.edges (G.nextEdgeId + 1 + 1) = none :=
    lookupEdge_none_of_fresh G.edges _ (fun p hp => by have := hfresh p hp; omega)
  have hn3 : lookupEdge G.edges (G.nextEdgeId + 1 + 1 + 1) = none :=
    lookupEdge_none_of_fresh G.edges _ (fun p hp => by have := hfresh p hp; omega)
  -- condition-shaped disequalities (all orientations the rewrites meet)
  have me0 : (e = G.nextEdgeId) = False := eq_false (by omega)
  have me1 : (e = G.nextEdgeId + 1) = False := eq_false (by omega)
  have me2 : (e = G.nextEdgeId + 1 + 1) = False := eq_false (by omega)
  have me3 : (e = G.nextEdgeId + 1 + 1 + 1) = False := eq_false (by omega)
  have mep : (e = prev) = False := eq_false (fun hc => hpe hc.symm)
  have metp : (e = tprev) = False := eq_false (fun hc => htpe hc.symm)
  have mew : (e = er.twin) = False := eq_false het
  have mw0 : (er.twin = G.nextEdgeId) = False := eq_false (by omega)
  have mw1 : (er.twin = G.nextEdgeId + 1) = False := eq_false (by omega)
  have mw2 : (er.twin = G.nextEdgeId + 1 + 1) = False := eq_false (by omega)
  have mw3 : (er.twin = G.nextEdgeId + 1 + 1 + 1) = False := eq_false (by omega)
  have mwp : (er.twin = prev) = False := eq_false (fun hc => hptw hc.symm)
  have mwtp : (er.twin = tprev) = False := eq_false (fun hc => htpt hc.symm)
  have mwe : (er.twin = e) = False := eq_false (fun hc => het hc.symm)
  have mp0 : (prev = G.nextEdgeId) = False := eq_false (by omega)
  have mp1 : (prev = G.nextEdgeId + 1) = False := eq_false (by omega)
  have mp2 : (prev = G.nextEdgeId + 1 + 1) = False := eq_false (by omega)
  have mp3 : (prev = G.nextEdgeId + 1 + 1 + 1) = False := eq_false (by omega)
  have mpe : (prev = e) = False := eq_false hpe
  have mpw : (prev = er.twin) = False := eq_false hptw
  have mptp : (prev = tprev) = False := eq_false hptp
  have mtp0 : (tprev = G.nextEdgeId) = False := eq_false (by omega)
  have mtp1 : (tprev = G.nextEdgeId + 1) = False := eq_false (by omega)
  have mtp2 : (tprev = G.nextEdgeId + 1 + 1) = False := eq_false (by omega)
  have mtp3 : (tprev = G.nextEdgeId + 1 + 1 + 1) = False := eq_false (by omega)
  have mtpe : (tprev = e) = False := eq_false htpe
  have mtpw : (tprev = er.twin) = False := eq_false htpt
  have mtpp : (tprev = prev) = False := eq_false (fun hc => hptp hc.symm)
  have m01 : (G.nextEdgeId = G.nextEdgeId + 1) = False := eq_false (by omega)
  have m02 : (G.nextEdgeId = G.nextEdgeId + 1 + 1) = False := eq_false (by omega)
  have m03 : (G.nextEdgeId = G.nextEdgeId + 1 + 1 + 1) = False := eq_false (by omega)
  have m10 : (G.nextEdgeId + 1 = G.nextEdgeId) = False := eq_false (by omega)
  have m12 : (G.nextEdgeId + 1 = G.nextEdgeId + 1 + 1) = False := eq_false (by omega)
  have m13 : (G.nextEdgeId + 1 = G.nextEdgeId + 1 + 1 + 1) = False := eq_false (by omega)
  have m20 : (G.nextEdgeId + 1 + 1 = G.nextEdgeId) = False := eq_false (by omega)
  have m21 : (G.nextEdgeId + 1 + 1 = G.nextEdgeId + 1) = False := eq_false (by omega)
  have m23 : (G.nextEdgeId + 1 + 1 = G.nextEdgeId + 1 + 1 + 1) = False := eq_false (by omega)
  have m30 : (G.nextEdgeId + 1 + 1 + 1 = G.nextEdgeId) = False := eq_false (by omega)
  have m31 : (G.nextEdgeId + 1 + 1 + 1 = G.nextEdgeId + 1) = False := eq_false (by omega)
  have m32 : (G.nextEdgeId + 1 + 1 + 1 = G.nextEdgeId + 1 + 1) = False := eq_false (by omega)
  have m0e : (G.nextEdgeId = e) = False := eq_false (by omega)
  have m0w : (G.nextEdgeId = er.twin) = False := eq_false (by omega)
  have m0p : (G.nextEdgeId = prev) = False := eq_false (by omega)
  have m0tp : (G.nextEdgeId = tprev) = False := eq_false (by omega)
  have m1e : (G.nextEdgeId + 1 = e) = False := eq_false (by omega)
  have m1w : (G.nextEdgeId + 1 = er.twin) = False := eq_false (by omega)
  have m1p : (G.nextEdgeId + 1 = prev) = False := eq_false (by omega)
  have m1tp : (G.nextEdgeId + 1 = tprev) = False := eq_false (by omega)
  have m2e : (G.nextEdgeId + 1 + 1 = e) = False := eq_false (by omega)
  have m2w : (G.nextEdgeId + 1 + 1 = er.twin) = False := eq_false (by omega)
  have m2p : (G.nextEdgeId + 1 + 1 = prev) = False := eq_false (by omega)
  have m2tp : (G.nextEdgeId + 1 + 1 = tprev) = False := eq_false (by omega)
  have m3e : (G.nextEdgeId + 1 + 1 + 1 = e) = False := eq_false (by omega)
  have m3w : (G.nextEdgeId + 1 + 1 + 1 = er.twin) = False := eq_false (by omega)
  have m3p : (G.nextEdgeId + 1 + 1 + 1 = prev) = False := eq_false (by omega)
  have m3tp : (G.nextEdgeId + 1 + 1 + 1 = tprev) = False := eq_false (by omega)
  have hc1 : (er.src = tr.trg) = True := eq_true hs1
  have hc2 : (er.trg = tr.src) = True := eq_true hs2
  have hc3 : (pr.face = er.face) = True := eq_true hprf
  have hc4 : (tpr.face = tr.face) = True := eq_true htprf
  have mff : (er.face = tr.face) = False := eq_false hff
  have mffr : (tr.face = er.face) = False := eq_false (fun hc => hff hc.symm)
  have hf1 := freshEdges_add_edge G er.src v hfresh
  have hf2 := freshEdges_add_edge _ v er.trg hf1
  have hf3 := freshEdges_setEdge _ G.nextEdgeId (fun r => { r with face := er.face }) hf2
  have hf4 := freshEdges_setEdge _ (G.nextEdgeId + 1) (fun r => { r with face := er.face }) hf3
  have hf5 := freshEdges_setEdge _ prev (fun r => { r with next := G.nextEdgeId }) hf4
  have hf6 := freshEdges_setEdge _ G.nextEdgeId (fun r => { r with next := G.nextEdgeId + 1 }) hf5
  have hf7 := freshEdges_setEdge _ (G.nextEdgeId + 1) (fun r => { r with next := er.next }) hf6
  have hf8 := freshEdges_add_edge _ tr.src v hf7
  have haA_eq : getEdge (add_edge G er.src v).2 G.nextEdgeId =
      some { src := er.src, trg := v } := getEdge_add_edge_eq G er.src v hfresh
  have haB_eq : getEdge (add_edge (add_edge G er.src v).2 v er.trg).2 (G.nextEdgeId + 1) =
      some { src := v, trg := er.trg } := by
    have h0 := getEdge_add_edge_eq _ v er.trg hf1
    rwa [add_edge_nextEdgeId] at h0
  have haC_eq := getEdge_add_edge_eq _ tr.src v hf7
  simp only [setEdge_nextEdgeId, add_edge_nextEdgeId] at haC_eq
  have haD_eq := getEdge_add_edge_eq _ v tr.trg hf8
  simp only [setEdge_nextEdgeId, add_edge_nextEdgeId] at haD_eq
  have hrun : insert_vertex_in_edge fuel G v e = insert_vertex_in_edge fuel G v e := rfl
  conv at hrun =>
    rhs
    simp only [insert_vertex_in_edge, Option.some_bind, Option.map_some',
      he, ht, hprev, hpr, htprev, htpr,
      hc1, hc2, hc3, hc4, eq_self_iff_true, if_true, if_false,
      add_edge_fst, add_edge_nextEdgeId, setEdge_nextEdgeId,
      getEdge_setEdge, getEdge_add_edge, hfresh, hf1, hf2, hf3, hf4, hf5, hf6, hf7, hf8,
      me0, me1, me2, me3, mep, metp, mew,
      mw0, mw1, mw2, mw3, mwp, mwtp, mwe]
  refine ⟨_, hrun, ?_, ?_, ?_, ?_, ?_, ?_, ?_, ?_, ?_, ?_, ?_, ?_, ?_, ?_, ?_⟩
  · simp only [getEdge_remove_edge_eq, getEdge_remove_edge_ne, getEdge_set_face_edge,
      getEdge_setEdge_eq, getEdge_setEdge_ne, getEdge_add_edge_ne,
      haA_eq, haB_eq, haC_eq, haD_eq,
      hfresh, hf1, hf2, hf3, hf4, hf5, hf6, hf7, hf8,
      add_edge_fst, add_edge_nextEdgeId, setEdge_nextEdgeId,
      Option.map_some', eq_self_iff_true, if_true, if_false, not_false_iff,
      m0e, m0w, m0p, m0tp, m01, m02, m03]
  · simp only [getEdge_remove_edge_eq, getEdge_remove_edge_ne, getEdge_set_face_edge,
      getEdge_setEdge_eq, getEdge_setEdge_ne, getEdge_add_edge_ne,
      haA_eq, haB_eq, haC_eq, haD_eq,
      hfresh, hf1, hf2, hf3, hf4, hf5, hf6, hf7, hf8,
      add_edge_fst, add_edge_nextEdgeId, setEdge_nextEdgeId,
      Option.map_some', eq_self_iff_true, if_true, if_false, not_false_iff,
      m1e, m1w, m1p, m1tp, m10, m12, m13]
  · have e22 : G.nextEdgeId + 2 = G.nextEdgeId + 1 + 1 := rfl
    rw [e22]
    simp only [getEdge_remove_edge_eq, getEdge_remove_edge_ne, getEdge_set_face_edge,
      getEdge_setEdge_eq, getEdge_setEdge_ne, getEdge_add_edge_ne,
      haA_eq, haB_eq, haC_eq, haD_eq,
      hfresh, hf1, hf2, hf3, hf4, hf5, hf6, hf7, hf8,
      add_edge_fst, add_edge_nextEdgeId, setEdge_nextEdgeId,
      Option.map_some', eq_self_iff_true, if_true, if_false, not_false_iff,
      m2e, m2w, m2p, m2tp, m20, m21, m23]
  · have e33 : G.nextEdgeId + 3 = G.nextEdgeId + 1 + 1 + 1 := rfl
    rw [e33]
    simp only [getEdge_remove_edge_eq, getEdge_remove_edge_ne, getEdge_set_face_edge,
      getEdge_setEdge_eq, getEdge_setEdge_ne, getEdge_add_edge_ne,
      haA_eq, haB_eq, haC_eq, haD_eq,
      hfresh, hf1, hf2, hf3, hf4, hf5, hf6, hf7, hf8,
      add_edge_fst, add_edge_nextEdgeId, setEdge_nextEdgeId,
      Option.map_some', eq_self_iff_true, if_true, if_false, not_false_iff,
      m3e, m3w, m3p, m3tp, m30, m31, m32]
  · simp only [getEdge_remove_edge_eq, getEdge_remove_edge_ne, getEdge_set_face_edge,
      getEdge_setEdge_eq, getEdge_setEdge_ne, getEdge_add_edge_ne,
      haA_eq, haB_eq, haC_eq, haD_eq,
      hfresh, hf1, hf2, hf3, hf4, hf5, hf6, hf7, hf8,
      add_edge_fst, add_edge_nextEdgeId, setEdge_nextEdgeId,
      Option.map_some', eq_self_iff_true, if_true, if_false, not_false_iff, hpr,
      mpe, mpw, mptp, mp0, mp1, mp2, mp3]
  · simp only [getEdge_remove_edge_eq, getEdge_remove_edge_ne, getEdge_set_face_edge,
      getEdge_setEdge_eq, getEdge_setEdge_ne, getEdge_add_edge_ne,
      haA_eq, haB_eq, haC_eq, haD_eq,
      hfresh, hf1, hf2, hf3, hf4, hf5, hf6, hf7, hf8,
      add_edge_fst, add_edge_nextEdgeId, setEdge_nextEdgeId,
      Option.map_some', eq_self_iff_true, if_true, if_false, not_false_iff, htpr,
      mtpe, mtpw, mtpp, mtp0, mtp1, mtp2, mtp3]
  · simp only [getEdge_remove_edge_eq, getEdge_remove_edge_ne, getEdge_set_face_edge,
      getEdge_setEdge_eq, getEdge_setEdge_ne, getEdge_add_edge_ne,
      haA_eq, haB_eq, haC_eq, haD_eq,
      hfresh, hf1, hf2, hf3, hf4, hf5, hf6, hf7, hf8,
      add_edge_fst, add_edge_nextEdgeId, setEdge_nextEdgeId,
      Option.map_some', eq_self_iff_true, if_true, if_false, not_false_iff, he,
      mep, metp, mew, me0, me1, me2, me3]
  · simp only [getEdge_remove_edge_eq, getEdge_remove_edge_ne, getEdge_set_face_edge,
      getEdge_setEdge_eq, getEdge_setEdge_ne, getEdge_add_edge_ne,
      haA_eq, haB_eq, haC_eq, haD_eq,
      hfresh, hf1, hf2, hf3, hf4, hf5, hf6, hf7, hf8,
      add_edge_fst, add_edge_nextEdgeId, setEdge_nextEdgeId,
      Option.map_some', eq_self_iff_true, if_true, if_false, not_false_iff, ht,
      mwp, mwtp, mwe, mw0, mw1, mw2, mw3]
  · intro x hxe hxw hxp hxtp hx0 hx1 hx2 hx3
    have fxe : (x = e) = False := eq_false hxe
    have fxw : (x = er.twin) = False := eq_false hxw
    have fxp : (x = prev) = False := eq_false hxp
    have fxtp : (x = tprev) = False := eq_false hxtp
    have fx0 : (x = G.nextEdgeId) = False := eq_false hx0
    have fx1 : (x = G.nextEdgeId + 1) = False := eq_false hx1
    have fx2 : (x = G.nextEdgeId + 1 + 1) = False := eq_false (fun hc => hx2 hc)
    have fx3 : (x = G.nextEdgeId + 1 + 1 + 1) = False := eq_false (fun hc => hx3 hc)
    simp only [getEdge_remove_edge_eq, getEdge_remove_edge_ne, getEdge_set_face_edge,
      getEdge_setEdge_eq, getEdge_setEdge_ne, getEdge_add_edge_ne,
      haA_eq, haB_eq, haC_eq, haD_eq,
      hfresh, hf1, hf2, hf3, hf4, hf5, hf6, hf7, hf8,
      add_edge_fst, add_edge_nextEdgeId, setEdge_nextEdgeId,
      Option.map_some', eq_self_iff_true, if_true, if_false, not_false_iff,
      fxe, fxw, fxp, fxtp, fx0, fx1, fx2, fx3]
  · simp only [remove_edge_faces, set_face_edge_faces, setEdge_faces, add_edge_faces,
      getFace_setFace, mff, mffr, eq_self_iff_true, if_true, if_false]
  · simp only [remove_edge_faces, set_face_edge_faces, setEdge_faces, add_edge_faces,
      getFace_setFace, mff, mffr, eq_self_iff_true, if_true, if_false]
  · simp only [remove_edge_faces, set_face_edge_faces, setEdge_faces, add_edge_faces,
      setFace_length]
  · rfl
  · rfl
  · rfl


/-! Helper lemmas for the split-edge claims. -/

theorem nextEdge_congr (G G' : HEDIGraph) (x : Nat)
    (h : getEdge G' x = getEdge G x) : nextEdge G' x = nextEdge G x := by
  simp only [nextEdge, h]

theorem ne_getLast_of_mem_dropLast (l : List Nat) (hl : l ≠ []) (hn : l.Nodup)
    (x : Nat) (hx : x ∈ l.dropLast) : x ≠ l.getLast hl := by
  intro hc
  have hsplit : l.dropLast ++ [l.getLast hl] = l := List.dropLast_append_getLast hl
  rw [← hsplit] at hn
  exact (List.disjoint_of_nodup_append hn) hx (by rw [hc]; exact List.mem_singleton_self _)

/-- Claim C1: after `insert_vertex_in_edge(v, e)` on edge `e` with twin `t`
(where `source(e) == target(t)` and `target(e) == source(t)`), the four new
edges `e1 = source(e)->v`, `e2 = v->target(e)`, `te1 = source(t)->v`,
`te2 = v->target(t)` are twinned crosswise (`twin(e1) = te2`,
`twin(te2) = e1`, `twin(e2) = te1`, `twin(te1) = e2`); `e1` and `e2` carry
the face of `e` while `te1` and `te2` carry the face of `t`; the boundary is
relinked so that `next(previous(e)) = e1`, `next(e1) = e2`, `next(e2)` is
the old `next(e)`, and symmetrically `next(twin_previous) = te1`,
`next(te1) = te2`, `next(te2)` is the old `next(twin)`; and the two faces'
representative edges are set to `e1` and `te1` respectively. -/
theorem claim_C1_split_edge_crosswise (fuel : Nat) (G : HEDIGraph) (v e : Nat)
    (er tr pr tpr : EdgeRec) (prev tprev : Nat)
    (hfresh : freshEdges G)
    (he : getEdge G e = some er) (ht : getEdge G er.twin = some tr)
    (hs1 : er.src = tr.trg) (hs2 : er.trg = tr.src)
    (hprev : previous_edge G e fuel = some prev)
    (hpr : getEdge G prev = some pr) (hprf : pr.face = er.face)
    (htprev : previous_edge G er.twin fuel = some tprev)
    (htpr : getEdge G tprev = some tpr) (htprf : tpr.face = tr.face)
    (hff : er.face ≠ tr.face) (hpe : prev ≠ e) (htpt : tprev ≠ er.twin)
    (het : e ≠ er.twin)
    (hfb : er.face < G.faces.length) (htfb : tr.face < G.faces.length) :
    ∃ G' e1 e2 te1 te2,
      insert_vertex_in_edge fuel G v e = some G' ∧
      getEdge G' e1 = some { src := er.src, trg := v, twin := te2,
                             next := e2, face := er.face, k := 0 } ∧
      getEdge G' e2 = some { src := v, trg := er.trg, twin := te1,
                             next := er.next, face := er.face, k := 0 } ∧
      getEdge G' te1 = some { src := tr.src, trg := v, twin := e2,
                              next := te2, face := tr.face, k := 0 } ∧
      getEdge G' te2 = some { src := v, trg := tr.trg, twin := e1,
                              next := tr.next, face := tr.face, k := 0 } ∧
      getEdge G' prev = some { pr with next := e1 } ∧
      getEdge G' tprev = some { tpr with next := te1 } ∧
      (∃ fp, getFace G'.faces er.face = some fp ∧ fp.edge = e1) ∧
      (∃ fp, getFace G'.faces tr.face = some fp ∧ fp.edge = te1) := by
  obtain ⟨G', hrun, h1, h2, h3, h4, hp, htp, -, -, -, hfa, hfb2, -, -, -, -⟩ :=
    insert_vertex_in_edge_spec fuel G v e er tr pr tpr prev tprev hfresh he ht hs1 hs2
      hprev hpr hprf htprev htpr htprf hff hpe htpt het
  obtain ⟨fp, hfp⟩ := getFace_lt G.faces er.face hfb
  obtain ⟨tfp, htfp⟩ := getFace_lt G.faces tr.face htfb
  rw [hfp, Option.map_some'] at hfa
  rw [htfp, Option.map_some'] at hfb2
  exact ⟨G', G.nextEdgeId, G.nextEdgeId + 1, G.nextEdgeId + 2, G.nextEdgeId + 3,
    hrun, h1, h2, h3, h4, hp, htp, ⟨_, hfa, rfl⟩, ⟨_, hfb2, rfl⟩⟩

/-- Witness for C1 on the triangle: splitting edge 0 (twin 1) at the
pre-created vertex 3 produces the four crosswise-twinned edges, relinks
both boundaries, and rewrites both faces' representative edges. -/
theorem claim_C1_split_edge_crosswise_witness :
    ∃ G' e1 e2 te1 te2,
      insert_vertex_in_edge 10 Gtri 3 0 = some G' ∧
      getEdge G' e1 = some { src := 0, trg := 3, twin := te2,
                             next := e2, face := 0, k := 0 } ∧
      getEdge G' e2 = some { src := 3, trg := 1, twin := te1,
                             next := 2, face := 0, k := 0 } ∧
      getEdge G' te1 = some { src := 1, trg := 3, twin := e2,
                              next := te2, face := 1, k := 0 } ∧
      getEdge G' te2 = some { src := 3, trg := 0, twin := e1,
                              next := 5, face := 1, k := 0 } ∧
      getEdge G' 4 = some { src := 2, trg := 0, twin := 5,
                            next := e1, face := 0, k := 0 } ∧
      getEdge G' 3 = some { src := 2, trg := 1, twin := 2,
                            next := te1, face := 1, k := 0 } ∧
      (∃ fp, getFace G'.faces 0 = some fp ∧ fp.edge = e1) ∧
      (∃ fp, getFace G'.faces 1 = some fp ∧ fp.edge = te1) :=
  claim_C1_split_edge_crosswise 10 Gtri 3 0
    { src := 0, trg := 1, twin := 1, next := 2, face := 0, k := 0 }
    { src := 1, trg := 0, twin := 0, next := 5, face := 1, k := 0 }
    { src := 2, trg := 0, twin := 5, next := 0, face := 0, k := 0 }
    { src := 2, trg := 1, twin := 2, next := 1, face := 1, k := 0 }
    4 3 (by decide) rfl rfl rfl rfl rfl rfl rfl rfl rfl rfl
    (by decide) (by decide) (by decide) (by decide) (by decide) (by decide)

/-- Claim C2 misstates the vertex count: on the triangle diagram splitting
edge 0 at the pre-created vertex 3 succeeds, yet `num_vertices` is
unchanged — `insert_vertex_in_edge` never adds a vertex (the caller creates
`v` beforehand), so the count does not increase by 1 during the call. -/
theorem claim_C2_counterexample_vertex_count :
    (insert_vertex_in_edge 10 Gtri 3 0).isSome = true ∧
    (insert_vertex_in_edge 10 Gtri 3 0).map num_vertices = some (num_vertices Gtri) ∧
    (insert_vertex_in_edge 10 Gtri 3 0).map num_vertices ≠ some (num_vertices Gtri + 1) := by
  decide

/-- Claim C2 as amended: splitting edge `e` whose face boundary is the
closed next-cycle `e :: rest` (length `n`) and whose twin's face boundary
is the closed next-cycle `twin :: trest` (length `m`) leaves the graph with
a closed boundary cycle of length `n + 1` on the first face (the two new
half-edges followed by the old `rest`), a closed boundary cycle of length
`m + 1` on the twin face, neither `e` nor its twin present any more, and
the vertex count unchanged: the new vertex is created by the caller before
the call, so `insert_vertex_in_edge` itself adds no vertex. -/
theorem claim_C2_split_edge_boundaries_amended (fuel : Nat) (G : HEDIGraph) (v e : Nat)
    (er tr : EdgeRec) (rest trest : List Nat)
    (hfresh : freshEdges G)
    (he : getEdge G e = some er) (ht : getEdge G er.twin = some tr)
    (hs1 : er.src = tr.trg) (hs2 : er.trg = tr.src)
    (hff : er.face ≠ tr.face) (het : e ≠ er.twin)
    (hchain : chainB G (e :: rest) e = true)
    (hnodup : (e :: rest).Nodup) (hrne : rest ≠ [])
    (htchain : chainB G (er.twin :: trest) er.twin = true)
    (htnodup : (er.twin :: trest).Nodup) (htrne : trest ≠ [])
    (hface : (e :: rest).all
      (fun x => (getEdge G x).all (fun r => r.face == er.face)) = true)
    (htface : (er.twin :: trest).all
      (fun x => (getEdge G x).all (fun r => r.face == tr.face)) = true)
    (hfuel : rest.length + 1 ≤ fuel) (htfuel : trest.length + 1 ≤ fuel) :
    ∃ G', insert_vertex_in_edge fuel G v e = some G' ∧
      chainB G' (G.nextEdgeId :: (G.nextEdgeId + 1) :: rest) G.nextEdgeId = true ∧
      chainB G' ((G.nextEdgeId + 2) :: (G.nextEdgeId + 3) :: trest) (G.nextEdgeId + 2) = true ∧
      (G.nextEdgeId :: (G.nextEdgeId + 1) :: rest).length = (e :: rest).length + 1 ∧
      ((G.nextEdgeId + 2) :: (G.nextEdgeId + 3) :: trest).length = (er.twin :: trest).length + 1 ∧
      getEdge G' e = none ∧ getEdge G' er.twin = none ∧
      num_vertices G' = num_vertices G := by
  obtain ⟨b, t, rfl⟩ : ∃ b t, rest = b :: t := by
    cases rest with
    | nil => exact absurd rfl hrne
    | cons b t => exact ⟨b, t, rfl⟩
  obtain ⟨c, s, rfl⟩ : ∃ c s, trest = c :: s := by
    cases trest with
    | nil => exact absurd rfl htrne
    | cons c s => exact ⟨c, s, rfl⟩
  have hfaceP : ∀ x ∈ e :: b :: t, ∀ r, getEdge G x = some r → r.face = er.face := by
    intro x hx r hr
    have hb := List.all_eq_true.mp hface x hx
    rw [hr] at hb
    exact beq_iff_eq.mp hb
  have htfaceP : ∀ x ∈ er.twin :: c :: s, ∀ r, getEdge G x = some r → r.face = tr.face := by
    intro x hx r hr
    have hb := List.all_eq_true.mp htface x hx
    rw [hr] at hb
    exact beq_iff_eq.mp hb
  have hdisj : ∀ x ∈ e :: b :: t, ∀ y ∈ er.twin :: c :: s, x ≠ y := by
    intro x hx y hy hc
    obtain ⟨rx, hrx⟩ := chainB_mem_present G (e :: b :: t) e hchain x hx
    have hfx := hfaceP x hx rx hrx
    obtain ⟨ry, hry⟩ := chainB_mem_present G (er.twin :: c :: s) er.twin htchain y hy
    have hfy := htfaceP y hy ry hry
    rw [hc, hry] at hrx
    injection hrx with hv
    exact hff (by rw [← hfx, ← hv]; exact hfy)
  have henb : e ∉ b :: t := (List.nodup_cons.mp hnodup).1
  have hnbt : (b :: t).Nodup := (List.nodup_cons.mp hnodup).2
  have htenb : er.twin ∉ c :: s := (List.nodup_cons.mp htnodup).1
  have hncs : (c :: s).Nodup := (List.nodup_cons.mp htnodup).2
  have hprev := previous_edge_chain G e (b :: t) fuel hchain henb hfuel
  rw [List.getLast_cons (by simp : b :: t ≠ [])] at hprev
  have hpmem : (b :: t).getLast (by simp) ∈ e :: b :: t :=
    List.mem_cons_of_mem e (List.getLast_mem (by simp))
  obtain ⟨pr, hpr⟩ :=
    chainB_mem_present G (e :: b :: t) e hchain ((b :: t).getLast (by simp)) hpmem
  have hprf : pr.face = er.face := hfaceP _ hpmem pr hpr
  have hpe : (b :: t).getLast (by simp) ≠ e := by
    intro hc
    exact henb (hc ▸ List.getLast_mem (by simp))
  have htprev := previous_edge_chain G er.twin (c :: s) fuel htchain htenb htfuel
  rw [List.getLast_cons (by simp : c :: s ≠ [])] at htprev
  have htpmem : (c :: s).getLast (by simp) ∈ er.twin :: c :: s :=
    List.mem_cons_of_mem er.twin (List.getLast_mem (by simp))
  obtain ⟨tpr, htpr⟩ :=
    chainB_mem_present G (er.twin :: c :: s) er.twin htchain ((c :: s).getLast (by simp)) htpmem
  have htprf : tpr.face = tr.face := htfaceP _ htpmem tpr htpr
  have htpt : (c :: s).getLast (by simp) ≠ er.twin := by
    intro hc
    exact htenb (hc ▸ List.getLast_mem (by simp))
  obtain ⟨G', hrun, h1, h2, h3, h4, hp, htp, he0, hw0, hfr, -, -, -, hverts, -, -⟩ :=
    insert_vertex_in_edge_spec fuel G v e er tr pr tpr
      ((b :: t).getLast (by simp)) ((c :: s).getLast (by simp))
      hfresh he ht hs1 hs2 hprev hpr hprf htprev htpr htprf hff hpe htpt het
  have her_next : er.next = b := by
    have hh := chainB_head_next G e (b :: t) e hchain
    rw [nextEdge, he, Option.map_some'] at hh
    injection hh with hv
  have htr_next : tr.next = c := by
    have hh := chainB_head_next G er.twin (c :: s) er.twin htchain
    rw [nextEdge, ht, Option.map_some'] at hh
    injection hh with hv
  have hframe1 : ∀ x ∈ (b :: t).dropLast, nextEdge G' x = nextEdge G x := by
    intro x hx
    have hxm : x ∈ b :: t := List.dropLast_subset _ hx
    have hxm1 : x ∈ e :: b :: t := List.mem_cons_of_mem e hxm
    obtain ⟨rx, hrx⟩ := chainB_mem_present G (e :: b :: t) e hchain x hxm1
    have hxlt : x < G.nextEdgeId := getEdge_lt_of_fresh G x rx hfresh hrx
    refine nextEdge_congr G G' x (hfr x ?_ ?_ ?_ ?_ (by omega) (by omega) (by omega) (by omega))
    · intro hc
      exact henb (hc ▸ hxm)
    · exact hdisj x hxm1 er.twin (List.mem_cons_self _ _)
    · exact ne_getLast_of_mem_dropLast (b :: t) (by simp) hnbt x hx
    · exact hdisj x hxm1 ((c :: s).getLast (by simp)) htpmem
  have hframe2 : ∀ x ∈ (c :: s).dropLast, nextEdge G' x = nextEdge G x := by
    intro x hx
    have hxm : x ∈ c :: s := List.dropLast_subset _ hx
    have hxm1 : x ∈ er.twin :: c :: s := List.mem_cons_of_mem er.twin hxm
    obtain ⟨rx, hrx⟩ := chainB_mem_present G (er.twin :: c :: s) er.twin htchain x hxm1
    have hxlt : x < G.nextEdgeId := getEdge_lt_of_fresh G x rx hfresh hrx
    refine nextEdge_congr G G' x (hfr x ?_ ?_ ?_ ?_ (by omega) (by omega) (by omega) (by omega))
    · exact (hdisj e (List.mem_cons_self _ _) x hxm1).symm
    · intro hc
      exact htenb (hc ▸ hxm)
    · exact (hdisj ((b :: t).getLast (by simp)) hpmem x hxm1).symm
    · exact ne_getLast_of_mem_dropLast (c :: s) (by simp) hncs x hx
  have hc2 : chainB G (b :: t) e = true := by
    have hh := hchain
    simp only [chainB, Bool.and_eq_true] at hh
    exact hh.2
  have htc2 : chainB G (c :: s) er.twin = true := by
    have hh := htchain
    simp only [chainB, Bool.and_eq_true] at hh
    exact hh.2
  have hlast1 : nextEdge G' ((b :: t).getLast (by simp)) = some G.nextEdgeId := by
    simp [nextEdge, hp]
  have hlast2 : nextEdge G' ((c :: s).getLast (by simp)) = some (G.nextEdgeId + 2) := by
    simp [nextEdge, htp]
  have hret1 : chainB G' (b :: t) G.nextEdgeId = true :=
    chainB_retarget G G' (b :: t) e G.nextEdgeId (by simp) hc2 hframe1 hlast1
  have hret2 : chainB G' (c :: s) (G.nextEdgeId + 2) = true :=
    chainB_retarget G G' (c :: s) er.twin (G.nextEdgeId + 2) (by simp) htc2 hframe2 hlast2
  have hn1 : nextEdge G' G.nextEdgeId = some (G.nextEdgeId + 1) := by
    simp [nextEdge, h1]
  have hn2 : nextEdge G' (G.nextEdgeId + 1) = some b := by
    simp [nextEdge, h2, her_next]
  have hn3 : nextEdge G' (G.nextEdgeId + 2) = some (G.nextEdgeId + 3) := by
    simp [nextEdge, h3]
  have hn4 : nextEdge G' (G.nextEdgeId + 3) = some c := by
    simp [nextEdge, h4, htr_next]
  have hchain1 :
      chainB G' (G.nextEdgeId :: (G.nextEdgeId + 1) :: b :: t) G.nextEdgeId = true := by
    simp [chainB, hn1, hn2, hret1]
  have hchain2 :
      chainB G' ((G.nextEdgeId + 2) :: (G.nextEdgeId + 3) :: c :: s) (G.nextEdgeId + 2) = true := by
    simp [chainB, hn3, hn4, hret2]
  refine ⟨G', hrun, hchain1, hchain2, ?_, ?_, he0, hw0, ?_⟩
  · simp only [List.length_cons]
  · simp only [List.length_cons]
  · simp [num_vertices, hverts]

/-- Witness for the amended C2 on the triangle: splitting edge 0 (boundary
0 -> 2 -> 4 of length 3, twin boundary 1 -> 5 -> 3 of length 3) yields
closed boundary cycles of length 4 on both faces, removes edges 0 and 1,
and leaves the vertex count at 4. -/
theorem claim_C2_split_edge_boundaries_amended_witness :
    ∃ G', insert_vertex_in_edge 10 Gtri 3 0 = some G' ∧
      chainB G' [6, 7, 2, 4] 6 = true ∧
      chainB G' [8, 9, 5, 3] 8 = true ∧
      ([6, 7, 2, 4] : List Nat).length = ([0, 2, 4] : List Nat).length + 1 ∧
      ([8, 9, 5, 3] : List Nat).length = ([1, 5, 3] : List Nat).length + 1 ∧
      getEdge G' 0 = none ∧ getEdge G' 1 = none ∧
      num_vertices G' = num_vertices Gtri :=
  claim_C2_split_edge_boundaries_amended 10 Gtri 3 0
    { src := 0, trg := 1, twin := 1, next := 2, face := 0, k := 0 }
    { src := 1, trg := 0, twin := 0, next := 5, face := 1, k := 0 }
    [2, 4] [5, 3]
    (by decide) rfl rfl rfl rfl (by decide) (by decide)
    (by decide) (by decide) (by decide) (by decide) (by decide) (by decide)
    (by decide) (by decide) (by decide) (by decide)

end HEDI
